import Mathlib

/-!
Shallow embedding of src/etl_billstatus.py (BILLSTATUS XML → Postgres ETL).

XML element trees are modelled by the mutual inductive `Elem`/`ElemList`
(tag, text, children); Python's ElementTree el.iter() preorder traversal is
`iterE`.  Python truthiness on the values that actually occur (ints,
possibly-empty strings, dates, None) is modelled explicitly (`truthyI`,
`truthyS`).  Dates and datetimes are modelled as `Nat` with datetime.min at
0; the external permissive parser (dateutil) is a parameter wherever its
output matters.  The SQL upserts and the driver loop of main are modelled as
pure state transitions emitting an event trace.
-/

namespace CongressETL

/-! Character and string helpers (ASCII, matching the Python operations used). -/

/-- Lowercase one ASCII character, as Python str.lower does on ASCII input. -/
def lcChar (c : Char) : Char :=
  if 'A' ≤ c ∧ c ≤ 'Z' then Char.ofNat (c.toNat + 32) else c

/-- Python s.lower() on ASCII strings. -/
def strLower (s : String) : String := ⟨s.data.map lcChar⟩

/-- Python s.strip(): drop whitespace from both ends. -/
def strStrip (s : String) : String :=
  ⟨((s.data.dropWhile Char.isWhitespace).reverse.dropWhile Char.isWhitespace).reverse⟩

/-- Does list b occur as an initial segment of list a? -/
def listStarts : List Char → List Char → Bool
  | _, [] => true
  | [], _ :: _ => false
  | a :: as, b :: bs => a == b && listStarts as bs

/-- Python s.endswith(t). -/
def strEnds (s t : String) : Bool := listStarts s.data.reverse t.data.reverse

/-- re.sub with pattern \D and empty replacement: keep only the digits. -/
def digitsOf (s : String) : List Char := s.data.filter Char.isDigit

/-- Numeric value of a digit string. -/
def natOfDigits (l : List Char) : Nat := l.foldl (fun a c => a * 10 + (c.toNat - 48)) 0

/-- Python int(s) on a string: optional surrounding whitespace, optional sign,
then a non-empty run of digits; anything else raises (None here). -/
def pyInt (s : String) : Option Int :=
  match (strStrip s).data with
  | [] => none
  | '-' :: rest => if rest ≠ [] ∧ rest.all Char.isDigit then some (-(natOfDigits rest : Int)) else none
  | '+' :: rest => if rest ≠ [] ∧ rest.all Char.isDigit then some ((natOfDigits rest : Int)) else none
  | l => if l.all Char.isDigit then some ((natOfDigits l : Int)) else none

/-- Python truthiness of an int-or-None value: None and 0 are falsy. -/
def truthyI : Option Int → Bool
  | none => false
  | some v => v ≠ 0

/-- Python truthiness of a str-or-None value: None and the empty string are falsy. -/
def truthyS : Option String → Bool
  | none => false
  | some s => s ≠ ""

/-- Python x or y for int-or-None values. -/
def pyOrI (a b : Option Int) : Option Int := if truthyI a then a else b

/-- Python x or y for str-or-None values. -/
def pyOrS (a b : Option String) : Option String := if truthyS a then a else b

/-- Python s.split(sep) for a one-character separator. -/
def splitOnChar (c : Char) (l : List Char) : List (List Char) :=
  l.foldr (fun a acc => if a = c then [] :: acc else ((a :: acc.headI) :: acc.tail)) [[]]

/-! The XML document model. -/

mutual
/-- An XML element: tag name, text (Python's el.text with None collapsed to
the empty string, as every use site does el.text or ""), child elements. -/
inductive Elem where
  | mk (tag : String) (text : String) (children : ElemList)
/-- A list of sibling elements (mutual with Elem so traversals are
structurally recursive and kernel-reducible). -/
inductive ElemList where
  | nil
  | cons (e : Elem) (es : ElemList)
end

def Elem.tag : Elem → String
  | .mk t _ _ => t

def Elem.text : Elem → String
  | .mk _ x _ => x

def Elem.childrenL : Elem → ElemList
  | .mk _ _ cs => cs

def ElemList.toList : ElemList → List Elem
  | .nil => []
  | .cons e es => e :: es.toList

def ElemList.ofList : List Elem → ElemList
  | [] => .nil
  | e :: es => .cons e (ElemList.ofList es)

/-- Convenient constructor for concrete documents. -/
def el (tag text : String) (cs : List Elem) : Elem := .mk tag text (.ofList cs)

/-- Direct children as a plain list (Python: for kid in el). -/
def Elem.kids (e : Elem) : List Elem := e.childrenL.toList

mutual
/-- el.iter(): the element itself, then all descendants, in document order. -/
def iterE : Elem → List Elem
  | .mk t x cs => .mk t x cs :: iterEL cs
termination_by structural e => e
/-- iter over a sibling list, preorder. -/
def iterEL : ElemList → List Elem
  | .nil => []
  | .cons e es => iterE e ++ iterEL es
termination_by structural l => l
end

/-- strip_ns on one tag: drop everything up to and including the first
closing brace (Python el.tag.split with maxsplit 1, keeping part 1). -/
def dropNsAux : List Char → Option (List Char)
  | [] => none
  | c :: cs => if c = '}' then some cs else dropNsAux cs

def strip_ns_tag (s : String) : String :=
  match dropNsAux s.data with
  | some r => ⟨r⟩
  | none => s

mutual
/-- strip_ns (source lines 46-50): strip a namespace marker from every tag. -/
def strip_ns : Elem → Elem
  | .mk t x cs => .mk (strip_ns_tag t) x (strip_nsL cs)
termination_by structural e => e
def strip_nsL : ElemList → ElemList
  | .nil => .nil
  | .cons e es => .cons (strip_ns e) (strip_nsL es)
termination_by structural l => l
end

/-! Identity extraction (source lines 61-99). -/

/-- Loop body of parse_identity_from_xml: one element updates the three
optional fields; each field only when still None (is-None check, not
truthiness) and the tag matches. -/
def pifxStep (st : Option Int × Option String × Option Int) (e : Elem) :
    Option Int × Option String × Option Int :=
  let (congress, bill_type, bill_number) := st
  let tn := strLower e.tag
  let tx := strStrip e.text
  if tx = "" then (congress, bill_type, bill_number) else
  let congress := if congress.isNone ∧ (tn = "congress" ∨ strEnds tn "congress") then
      (let dd := digitsOf tx; if dd ≠ [] then some ((natOfDigits dd : Int)) else congress)
    else congress
  let bill_type := if bill_type.isNone ∧ ((tn = "type" ∨ tn = "billtype") ∨ strEnds tn "billtype") then
      some (strLower tx)
    else bill_type
  let bill_number := if bill_number.isNone ∧ ((tn = "number" ∨ tn = "billnumber") ∨ strEnds tn "billnumber") then
      (let dd := digitsOf tx; if dd ≠ [] then some ((natOfDigits dd : Int)) else bill_number)
    else bill_number
  (congress, bill_type, bill_number)

/-- The for-loop of parse_identity_from_xml with its early break once all
three fields are truthy (Python: if congress and bill_type and bill_number). -/
def pifxLoop : List Elem → (Option Int × Option String × Option Int) →
    Option Int × Option String × Option Int
  | [], st => st
  | e :: es, st =>
    let st := pifxStep st e
    if truthyI st.1 ∧ truthyS st.2.1 ∧ truthyI st.2.2 then st else pifxLoop es st

/-- parse_identity_from_xml (source lines 61-77). -/
def parse_identity_from_xml (root : Elem) : Option Int × Option String × Option Int :=
  pifxLoop (iterE root) (none, none, none)

/-- Tail of the filename pattern after the literal marker: digits, letters,
digits, then the literal ".xml" at end of string (regex groups 1-3; greedy
\d+ / [a-z]+ are exact here because the character classes are disjoint). -/
def fnTail (l : List Char) : Option (Int × String × Int) :=
  let ds1 := l.takeWhile Char.isDigit
  let r1 := l.dropWhile Char.isDigit
  let ls := r1.takeWhile Char.isAlpha
  let r2 := r1.dropWhile Char.isAlpha
  let ds2 := r2.takeWhile Char.isDigit
  let r3 := r2.dropWhile Char.isDigit
  if ds1 ≠ [] ∧ ls ≠ [] ∧ ds2 ≠ [] ∧ r3 = ".xml".data then
    some ((natOfDigits ds1 : Int), ⟨ls⟩, (natOfDigits ds2 : Int))
  else none

/-- re.search with an end anchor: try the pattern at each position, leftmost
successful start wins.  Input is the already-lowercased basename (the regex
is applied case-insensitively). -/
def searchBillstatus : List Char → Option (Int × String × Int)
  | [] => none
  | c :: cs =>
    match (if listStarts (c :: cs) "billstatus-".data then fnTail ((c :: cs).drop 11) else none) with
    | some r => some r
    | none => searchBillstatus cs

/-- parse_identity_from_filename (source lines 79-83): match
BILLSTATUS-digits letters digits .xml at the end of the basename. -/
def parse_identity_from_filename (path : String) : Option Int × Option String × Option Int :=
  let base : List Char := (splitOnChar '/' path.data).getLastI
  match searchBillstatus (base.map lcChar) with
  | some (c, t, n) => (some c, some t, some n)
  | none => (none, none, none)

/-- re.match of letters-then-digits spanning the whole string
(source line 96); returns the numeric value of the digit group. -/
def matchLettersDigits (l : List Char) : Option Int :=
  let ls := l.takeWhile (fun c => 'a' ≤ c ∧ c ≤ 'z')
  let r1 := l.dropWhile (fun c => 'a' ≤ c ∧ c ≤ 'z')
  let ds := r1.takeWhile Char.isDigit
  let r2 := r1.dropWhile Char.isDigit
  if ls ≠ [] ∧ ds ≠ [] ∧ r2 = [] then some ((natOfDigits ds : Int)) else none

/-- One candidate index of parse_identity_from_dirs: the segment before a
"bills"/"billstatus" part must parse as an int (Python negative indexing
wraps to the last segment when idx is 0), the following segment is the type,
and the one after that must match letters-digits to yield the number.  In
every actual call the final path segment is an .xml filename, so idx+1 is in
range; out-of-range access is modelled by the empty string. -/
def dirsTry (parts : List String) (idx : Nat) : Option (Int × String × Int) :=
  let pidx := if idx = 0 then parts.length - 1 else idx - 1
  match pyInt (parts.getD pidx "") with
  | none => none
  | some congress =>
    let bill_type := strLower (parts.getD (idx + 1) "")
    let bill_id := if parts.length > idx + 2 then strLower (parts.getD (idx + 2) "") else ""
    match matchLettersDigits bill_id.data with
    | some num => some (congress, bill_type, num)
    | none => none

/-- The for-loop over candidate indices, already reversed (rightmost first). -/
def dirsLoop (parts : List String) : List Nat → Option Int × Option String × Option Int
  | [] => (none, none, none)
  | idx :: rest =>
    match dirsTry parts idx with
    | some (c, t, n) => (some c, some t, some n)
    | none => dirsLoop parts rest

/-- parse_identity_from_dirs (source lines 85-99). -/
def parse_identity_from_dirs (path : String) : Option Int × Option String × Option Int :=
  let parts : List String := (splitOnChar '/' path.data).map (fun l => (⟨l⟩ : String))
  let idxs := (List.range parts.length).filter
    (fun i => strLower (parts.getD i "") = "bills" ∨ strLower (parts.getD i "") = "billstatus")
  if idxs = [] then (none, none, none) else dirsLoop parts idxs.reverse

/-- The identity-resolution portion of parse_one (source lines 118-128):
fill from content, then, when a field is still None, from the filename, then
from the directory segments, each time with Python or (truthiness, not
is-None); reject when any field is None afterwards.  The final bill type is
lowercased. -/
inductive IdRes where
  | ok (congress : Int) (bill_type : String) (bill_number : Int)
  | err (msg : String)
deriving DecidableEq

def resolve_identity (root : Elem) (path : String) : IdRes :=
  let s1 := parse_identity_from_xml root
  let s2 :=
    if s1.1.isNone ∨ s1.2.1.isNone ∨ s1.2.2.isNone then
      let (c2, t2, n2) := parse_identity_from_filename path
      (pyOrI s1.1 c2, pyOrS s1.2.1 t2, pyOrI s1.2.2 n2)
    else s1
  let s3 :=
    if s2.1.isNone ∨ s2.2.1.isNone ∨ s2.2.2.isNone then
      let (c3, t3, n3) := parse_identity_from_dirs path
      (pyOrI s2.1 c3, pyOrS s2.2.1 t3, pyOrI s2.2.2 n3)
    else s2
  match s3 with
  | (some c, some t, some n) => .ok c (strLower t) n
  | _ => .err "missing identity"

/-! Stable sorting, modelling Python sorted with a key function.  Python
sorted is stable and ascending; any stable ascending sort computes the same
list, so stable insertion sort is used: an element is inserted before the
first existing element that is not strictly smaller, which keeps the
original relative order of equal keys. -/

def ltKey (f : α → Nat) (a b : α) : Bool := decide (f a < f b)

def insLt (lt : α → α → Bool) (a : α) : List α → List α
  | [] => [a]
  | b :: bs => if lt b a then b :: insLt lt a bs else a :: b :: bs

def sortLt (lt : α → α → Bool) : List α → List α
  | [] => []
  | x :: xs => insLt lt x (sortLt lt xs)

/-! Field extraction (source lines 102-196). -/

/-- text_candidates (source lines 102-109).  Python accumulates matching
non-empty texts into a set and returns list(set): the collection is the
deduplicated candidates, modelled here in first-encounter order; the
enumeration order of list(vals) is NOT specified by the code (set iteration
order), so consumers are stated over an arbitrary permutation of this list. -/
def text_candidates (root : Elem) (names : List String) : List String :=
  (iterE root).foldl (fun vals e =>
    let tn := strLower e.tag
    if names.contains tn ∨ names.any (fun n => strEnds tn n) then
      let tx := strStrip e.text
      if tx ≠ "" ∧ ¬ vals.contains tx then vals ++ [tx] else vals
    else vals) []

/-- The tag-name set used for titles (source line 130). -/
def titleNames : List String := ["title", "officialtitle", "titlewithoutnumber"]

/-- Title choice (source line 131): sorted by length, first element, applied
to whatever enumeration of the candidate set Python produces. -/
def pick_title (titles : List String) : Option String :=
  (sortLt (ltKey String.length) titles).head?

/-- One extracted action row, in tuple order (dt, actor, txt, code).
Datetimes are Nat with datetime.min modelled as 0. -/
structure Act where
  dt : Option Nat
  actor : Option String
  text : Option String
  code : Option String
deriving DecidableEq

/-- The per-action inner loop over direct children (source lines 172-178),
parameterised by the external permissive datetime parser safe_dt.  The
datetime branch assigns unconditionally (no non-empty guard); the text,
actors and actioncode branches require non-empty text. -/
def eafStep (sdt : String → Option Nat) (st : Act) (kid : Elem) : Act :=
  if strEnds (strLower kid.tag) "actiondatetime" ∨ strEnds (strLower kid.tag) "actiondate" then
    { st with dt := sdt (strStrip kid.text) }
  else if strEnds (strLower kid.tag) "text" ∧ strStrip kid.text ≠ "" then
    { st with text := some (strStrip kid.text) }
  else if strEnds (strLower kid.tag) "actors" ∧ strStrip kid.text ≠ "" then
    { st with actor := some (strStrip kid.text) }
  else if strEnds (strLower kid.tag) "actioncode" ∧ strStrip kid.text ≠ "" then
    { st with code := some (strStrip kid.text) }
  else st

def extract_action_fields (sdt : String → Option Nat) (a : Elem) : Act :=
  a.kids.foldl (eafStep sdt) ⟨none, none, none, none⟩

/-- Sort key for latest-action selection (source line 184): the action's
datetime, or datetime.min (here 0) when missing.  A Python datetime object
is always truthy, so x[0] or datetime.min is datetime.min exactly when x[0]
is None. -/
def actKey (a : Act) : Nat := a.dt.getD 0

/-- Latest-action selection (source lines 182-185): last element of the
stable ascending sort by actKey; None on an empty list. -/
def latest_action (acts : List Act) : Option Act :=
  (sortLt (ltKey actKey) acts).getLast?

/-! Cosponsor batch dedupe (source lines 200-213). -/

/-- One buffered cosponsor row (congress, bill_type, bill_number, bioguide,
fullname, party, state, joined_date, is_original). -/
structure CosRow where
  congress : Int
  bill_type : String
  bill_number : Int
  bio : String
  fullname : Option String
  party : Option String
  state : Option String
  joined : Option Nat
  is_orig : Option Bool
deriving DecidableEq

def cosKey (r : CosRow) : Int × String × Int × String :=
  (r.congress, r.bill_type, r.bill_number, r.bio)

/-- Python x if x else cur for a date-or-None value: date objects are always
truthy, so this is an is-None test. -/
def pyOrDate (a b : Option Nat) : Option Nat := if a.isSome then a else b

/-- The merge of a later observation r into the current entry (source lines
207-212).  String and date fields: the new value when truthy, else the
current one.  is_original: True as soon as either side is True; otherwise
the new value when not None, else the current one. -/
def mergeCos (cur r : CosRow) : CosRow :=
  { cur with
    fullname := pyOrS r.fullname cur.fullname,
    party := pyOrS r.party cur.party,
    state := pyOrS r.state cur.state,
    joined := pyOrDate r.joined cur.joined,
    is_orig := if r.is_orig = some true ∨ cur.is_orig = some true then some true
               else if r.is_orig.isSome then r.is_orig else cur.is_orig }

/-- One step of the dict-building loop: first occurrence of a key inserts
the row as-is (at the end, dict insertion order); a later occurrence merges
into the existing entry in place. -/
def dedupeStep (acc : List CosRow) (r : CosRow) : List CosRow :=
  if acc.any (fun x => cosKey x = cosKey r) then
    acc.map (fun x => if cosKey x = cosKey r then mergeCos x r else x)
  else acc ++ [r]

/-- _dedupe_cosponsors (source lines 200-213): merged.values() in dict
insertion order. -/
def dedupe_cosponsors (rows : List CosRow) : List CosRow :=
  rows.foldl dedupeStep []

/-! The bills upsert (source lines 299-316). -/

abbrev BillKey := Int × String × Int

structure BillRow where
  chamber : Option String
  title : Option String
  introduced_date : Option Nat
  latest_action : Option String
  latest_action_date : Option Nat
  sponsor_bioguide : Option String
  sponsor_fullname : Option String
deriving DecidableEq

/-- SQL coalesce of two nullable values: the first when non-null, else the
second (a null test, not Python truthiness). -/
def sqlCoalesce (a b : Option α) : Option α := if a.isSome then a else b

/-- The ON CONFLICT DO UPDATE row (source lines 304-311): chamber is taken
from the incoming (excluded) row unconditionally; every other column is
coalesce(excluded.column, bills.column). -/
def mergeBillRow (old incoming : BillRow) : BillRow :=
  { chamber := incoming.chamber,
    title := sqlCoalesce incoming.title old.title,
    introduced_date := sqlCoalesce incoming.introduced_date old.introduced_date,
    latest_action := sqlCoalesce incoming.latest_action old.latest_action,
    latest_action_date := sqlCoalesce incoming.latest_action_date old.latest_action_date,
    sponsor_bioguide := sqlCoalesce incoming.sponsor_bioguide old.sponsor_bioguide,
    sponsor_fullname := sqlCoalesce incoming.sponsor_fullname old.sponsor_fullname }

/-- INSERT ... ON CONFLICT (congress,bill_type,bill_number) DO UPDATE on the
bills relation, modelled on an association list with unique keys. -/
def upsertBill : List (BillKey × BillRow) → BillKey → BillRow → List (BillKey × BillRow)
  | [], k, r => [(k, r)]
  | (k', o) :: rest, k, r =>
    if k' = k then (k', mergeBillRow o r) :: rest else (k', o) :: upsertBill rest k r

/-! The driver loop of main (source lines 291-335), modelled as a pure state
machine over the list of per-file parse results, emitting the SQL statements
it executes as an event trace. -/

/-- One buffered action row: bill key, the action tuple, source path
(source line 319). -/
abbrev ARow := BillKey × Act × String

/-- One cosponsor observation as extracted by parse_one (source line 163):
(bio, fullname, party, state, joined, is_orig). -/
structure CosObs where
  bio : String
  fullname : Option String
  party : Option String
  state : Option String
  joined : Option Nat
  is_orig : Option Bool
deriving DecidableEq

/-- The record parse_one returns, restricted to what the driver consumes. -/
structure PRec where
  key : BillKey
  bill : BillRow
  actions : List Act
  cosponsors : List CosObs
  source : String
deriving DecidableEq

/-- Outcome of parse_one for one file. -/
inductive ParseOut where
  | ok (rec : PRec)
  | err (msg : String)
deriving DecidableEq

/-- A cosponsor buffer row built from a record (source lines 320-321). -/
def cosRowOf (k : BillKey) (c : CosObs) : CosRow :=
  ⟨k.1, k.2.1, k.2.2, c.bio, c.fullname, c.party, c.state, c.joined, c.is_orig⟩

/-- Statements executed against the store.  flushCos carries the raw buffer
handed to flush_buffers; the rows the bulk statement submits are
dedupe_cosponsors of it. -/
inductive Event where
  | upsertBillEv (k : BillKey) (r : BillRow)
  | flushActions (rows : List ARow)
  | flushCos (raw : List CosRow)
  | commitEv
deriving DecidableEq

/-- Driver state: counters, the bills relation, the two buffers, the trace. -/
structure DrvSt where
  ok : Nat
  bad : Nat
  batch_bills : Nat
  bills : List (BillKey × BillRow)
  actions_buf : List ARow
  cosponsors_buf : List CosRow
  events : List Event
deriving DecidableEq

/-- The numeric tunables (source lines 31-33), passed explicitly. -/
structure EtlConfig where
  buffer_flush_rows : Nat
  commit_every_bills : Nat

/-- First block of flush_buffers (source lines 216-228): bulk-insert then
clear the action buffer when non-empty. -/
def flushActionsStep (st : DrvSt) : DrvSt :=
  if st.actions_buf ≠ [] then
    { st with events := st.events ++ [Event.flushActions st.actions_buf], actions_buf := [] }
  else st

/-- Second block of flush_buffers (source lines 230-249): dedupe, execute
the bulk upsert when the deduped batch is non-empty, then clear the
cosponsor buffer, all only when the buffer is non-empty. -/
def flushCosStep (st : DrvSt) : DrvSt :=
  if st.cosponsors_buf ≠ [] then
    { (if dedupe_cosponsors st.cosponsors_buf ≠ [] then
        { st with events := st.events ++ [Event.flushCos st.cosponsors_buf] }
      else st) with cosponsors_buf := [] }
  else st

/-- flush_buffers (source lines 215-249): the two blocks in order. -/
def flush_buffers (st : DrvSt) : DrvSt :=
  flushCosStep (flushActionsStep st)

/-- The immediate per-document work (source lines 299-324): the bill upsert
is executed first (unbuffered), then the document's action and cosponsor
rows are appended to the buffers, then the counters are bumped. -/
def pfIngest (st : DrvSt) (rec : PRec) : DrvSt :=
  { st with
    bills := upsertBill st.bills rec.key rec.bill,
    events := st.events ++ [Event.upsertBillEv rec.key rec.bill],
    actions_buf := st.actions_buf ++ rec.actions.map (fun a => (rec.key, a, rec.source)),
    cosponsors_buf := st.cosponsors_buf ++ rec.cosponsors.map (cosRowOf rec.key),
    ok := st.ok + 1, batch_bills := st.batch_bills + 1 }

/-- The threshold check (source lines 326-327): flush when the combined
buffered row count has reached BUFFER_FLUSH_ROWS. -/
def pfFlushStep (cfg : EtlConfig) (s : DrvSt) : DrvSt :=
  if s.actions_buf.length + s.cosponsors_buf.length ≥ cfg.buffer_flush_rows then
    flush_buffers s
  else s

/-- The commit check (source lines 329-332): flush and commit when
COMMIT_EVERY_BILLS bills have been processed since the last commit. -/
def pfCommitStep (cfg : EtlConfig) (s : DrvSt) : DrvSt :=
  if s.batch_bills ≥ cfg.commit_every_bills then
    { flush_buffers s with
      events := (flush_buffers s).events ++ [Event.commitEv], batch_bills := 0 }
  else s

def process_file (cfg : EtlConfig) (st : DrvSt) (res : ParseOut) : DrvSt :=
  match res with
  | .err _ => { st with bad := st.bad + 1 }
  | .ok rec => pfCommitStep cfg (pfFlushStep cfg (pfIngest st rec))

/-- The whole ingest run (source lines 291-335): fold over the files, then a
final unconditional flush and commit. -/
def run_etl (cfg : EtlConfig) (results : List ParseOut) : DrvSt :=
  let st := results.foldl (process_file cfg) ⟨0, 0, 0, [], [], [], []⟩
  let st := flush_buffers st
  { st with events := st.events ++ [Event.commitEv] }

/-! General lemmas about the stable insertion sort. -/

theorem insLt_perm (lt : α → α → Bool) (a : α) (l : List α) :
    (insLt lt a l).Perm (a :: l) := by
  induction l with
  | nil => simp [insLt]
  | cons b bs ih =>
    simp only [insLt]
    by_cases h : lt b a = true
    · simp only [h, if_true]
      exact (ih.cons b).trans (List.Perm.swap a b bs)
    · simp [h]

theorem sortLt_perm (lt : α → α → Bool) (l : List α) : (sortLt lt l).Perm l := by
  induction l with
  | nil => simp [sortLt]
  | cons x xs ih =>
    simp only [sortLt]
    exact (insLt_perm lt x (sortLt lt xs)).trans (ih.cons x)

theorem pairwise_insLt (f : α → Nat) (a : α) (l : List α)
    (h : l.Pairwise (fun x y => f x ≤ f y)) :
    (insLt (ltKey f) a l).Pairwise (fun x y => f x ≤ f y) := by
  induction l with
  | nil => simp [insLt]
  | cons b bs ih =>
    rw [List.pairwise_cons] at h
    obtain ⟨hb, hbs⟩ := h
    simp only [insLt, ltKey]
    by_cases hba : f b < f a
    · simp only [decide_eq_true_eq, hba, if_true]
      rw [List.pairwise_cons]
      refine ⟨fun x hx => ?_, ih hbs⟩
      rcases List.mem_cons.mp ((insLt_perm (ltKey f) a bs).mem_iff.mp hx) with hxa | hxbs
      · exact hxa ▸ Nat.le_of_lt hba
      · exact hb x hxbs
    · simp only [decide_eq_true_eq, hba, if_false]
      rw [List.pairwise_cons]
      refine ⟨fun x hx => ?_, List.pairwise_cons.mpr ⟨hb, hbs⟩⟩
      rcases List.mem_cons.mp hx with hxb | hxbs
      · exact hxb ▸ Nat.le_of_not_lt hba
      · exact Nat.le_trans (Nat.le_of_not_lt hba) (hb x hxbs)

theorem sortLt_pairwise (f : α → Nat) (l : List α) :
    (sortLt (ltKey f) l).Pairwise (fun x y => f x ≤ f y) := by
  induction l with
  | nil => simp [sortLt]
  | cons x xs ih => exact pairwise_insLt f x _ ih

theorem filter_insLt (f : α → Nat) (m : Nat) (a : α) (l : List α) :
    (insLt (ltKey f) a l).filter (fun x => decide (f x = m)) =
      if f a = m then a :: l.filter (fun x => decide (f x = m))
      else l.filter (fun x => decide (f x = m)) := by
  induction l with
  | nil => by_cases h : f a = m <;> simp [insLt, h]
  | cons b bs ih =>
    simp only [insLt, ltKey]
    by_cases hba : f b < f a
    · simp only [decide_eq_true_eq, hba, if_true]
      by_cases ham : f a = m
      · have hbm : ¬ (f b = m) := by omega
        simp [List.filter_cons, hbm, ih, ham]
      · by_cases hbm : f b = m <;> simp [List.filter_cons, hbm, ih, ham]
    · simp only [decide_eq_true_eq, hba, if_false]
      by_cases ham : f a = m <;> simp [List.filter_cons, ham]

theorem sortLt_filter_key (f : α → Nat) (m : Nat) (l : List α) :
    (sortLt (ltKey f) l).filter (fun x => decide (f x = m)) =
      l.filter (fun x => decide (f x = m)) := by
  induction l with
  | nil => simp [sortLt]
  | cons x xs ih =>
    simp only [sortLt]
    rw [filter_insLt]
    by_cases h : f x = m <;> simp [List.filter_cons, h, ih]

theorem mem_of_getLast?_eq (l : List α) (a : α) (h : l.getLast? = some a) : a ∈ l := by
  obtain ⟨hne, rfl⟩ := List.mem_getLast?_eq_getLast (l := l) (x := a) (by simp [h])
  exact List.getLast_mem hne

/-- Along a Pairwise relation, the last element is above every member. -/
theorem pairwise_rel_getLast? {R : α → α → Prop} :
    ∀ (l : List α), l.Pairwise R → ∀ b, l.getLast? = some b → ∀ x ∈ l, x = b ∨ R x b
  | [], _, b, hb => by simp at hb
  | [a], _, b, hb => by
    simp only [List.getLast?_singleton, Option.some.injEq] at hb
    intro x hx
    simp only [List.mem_singleton] at hx
    exact Or.inl (hx.trans hb)
  | a :: c :: t, hp, b, hb => by
    rw [List.getLast?_cons_cons] at hb
    rw [List.pairwise_cons] at hp
    obtain ⟨ha, hp⟩ := hp
    intro x hx
    rcases List.mem_cons.mp hx with hxa | hx
    · exact hxa ▸ Or.inr (ha b (mem_of_getLast?_eq _ _ hb))
    · exact pairwise_rel_getLast? (c :: t) hp b hb x hx

/-- The last element of a list survives as the last element of a filter it
satisfies. -/
theorem getLast?_filter_eq (p : α → Bool) :
    ∀ (l : List α) (b : α), l.getLast? = some b → p b = true →
      (l.filter p).getLast? = some b
  | [], b, hb, _ => by simp at hb
  | [a], b, hb, hp => by
    simp only [List.getLast?_singleton, Option.some.injEq] at hb
    subst hb
    simp [List.filter_cons, hp]
  | a :: c :: t, b, hb, hp => by
    rw [List.getLast?_cons_cons] at hb
    have ih := getLast?_filter_eq p (c :: t) b hb hp
    rw [List.filter_cons]
    by_cases ha : p a = true
    · simp only [ha, if_true]
      rcases hfe : (c :: t).filter p with _ | ⟨y, ys⟩
      · rw [hfe] at ih; simp at ih
      · rw [hfe] at ih
        rw [List.getLast?_cons_cons, ih]
    · simp [ha, ih]

/-! Claim C4: title selection. -/

/-- Claim C4 counterexample.  The code builds the candidate set with
list(set(...)), whose enumeration order is unspecified, and picks the head
of the stable length-sort of that enumeration.  For the document whose
candidates in document order are cd then ab (equal lengths), the admissible
enumeration ab-then-cd makes the code choose ab, while the enumeration in
document order yields cd: the choice depends on the set enumeration order,
so the claimed deterministic first-in-document-order tie-break is false. -/
theorem claim_C4_counterexample :
    text_candidates (el "bill" "" [el "title" "cd" [], el "officialTitle" "ab" []]) titleNames
      = ["cd", "ab"] ∧
    List.Perm ["ab", "cd"] ["cd", "ab"] ∧
    pick_title ["ab", "cd"] = some "ab" ∧
    pick_title ["cd", "ab"] = some "cd" ∧
    ("ab" : String) ≠ "cd" := by
  refine ⟨by decide, by decide, by decide, by decide, by decide⟩

/-- Claim C4, amended: for every document and every enumeration of its
candidate title set, the extracted title is null when there are no
candidates, and otherwise is a candidate of minimal length; the tie-break
among equal-minimal-length candidates is the unspecified set enumeration
order, not document order. -/
theorem claim_C4 (root : Elem) (enum : List String)
    (hperm : enum.Perm (text_candidates root titleNames)) :
    (text_candidates root titleNames = [] → pick_title enum = none) ∧
    (text_candidates root titleNames ≠ [] →
      ∃ t, pick_title enum = some t ∧ t ∈ text_candidates root titleNames ∧
        ∀ s ∈ text_candidates root titleNames, t.length ≤ s.length) := by
  constructor
  · intro h
    rw [h] at hperm
    have he : enum = [] := List.Perm.eq_nil hperm
    subst he
    simp [pick_title, sortLt]
  · intro h
    have hsp := sortLt_perm (ltKey String.length) enum
    rcases hs : sortLt (ltKey String.length) enum with _ | ⟨t, rest⟩
    · rw [hs] at hsp
      exact absurd (hsp.trans hperm).symm.eq_nil h
    · refine ⟨t, ?_, ?_, ?_⟩
      · simp [pick_title, hs]
      · have : t ∈ sortLt (ltKey String.length) enum := by simp [hs]
        exact hperm.mem_iff.mp (hsp.mem_iff.mp this)
      · intro s hs'
        have hpw := sortLt_pairwise String.length enum
        rw [hs, List.pairwise_cons] at hpw
        have hsmem : s ∈ sortLt (ltKey String.length) enum :=
          hsp.mem_iff.mpr (hperm.mem_iff.mpr hs')
        rw [hs] at hsmem
        rcases List.mem_cons.mp hsmem with h1 | h1
        · exact h1 ▸ Nat.le_refl _
        · exact hpw.1 s h1

/-- Claim C4 witness: a concrete application of the amended theorem. -/
theorem claim_C4_witness :
    (text_candidates (el "bill" "" [el "title" "Modify X Act" [], el "officialtitle" "An Act to modify X" []]) titleNames = [] →
      pick_title ["An Act to modify X", "Modify X Act"] = none) ∧
    (text_candidates (el "bill" "" [el "title" "Modify X Act" [], el "officialtitle" "An Act to modify X" []]) titleNames ≠ [] →
      ∃ t, pick_title ["An Act to modify X", "Modify X Act"] = some t ∧
        t ∈ text_candidates (el "bill" "" [el "title" "Modify X Act" [], el "officialtitle" "An Act to modify X" []]) titleNames ∧
        ∀ s ∈ text_candidates (el "bill" "" [el "title" "Modify X Act" [], el "officialtitle" "An Act to modify X" []]) titleNames,
          t.length ≤ s.length) :=
  claim_C4 (el "bill" "" [el "title" "Modify X Act" [], el "officialtitle" "An Act to modify X" []])
    ["An Act to modify X", "Modify X Act"] (by decide)

/-! Claim C5: latest-action selection. -/

/-- Claim C5 counterexample.  An extracted action list with two actions,
both with missing datetimes, selects the second one: an action with a
missing datetime is selected although it is not the sole action, refuting
that part of the claim. -/
theorem claim_C5_counterexample :
    latest_action [⟨none, none, some "a", none⟩, ⟨none, none, some "b", none⟩] =
      some ⟨none, none, some "b", none⟩ ∧
    (Act.mk none none (some "b") none).dt = none ∧
    ([⟨none, none, some "a", none⟩, ⟨none, none, some "b", none⟩] : List Act).length = 2 := by
  refine ⟨by decide, by decide, by decide⟩

/-- Claim C5, amended: for every non-empty extracted action list, the latest
action is an action of maximal datetime key (missing datetime keyed as the
minimum value 0), ties at the maximum going to the last extracted action;
an action with missing datetime is selected only when every action's key
equals the minimum value, in particular when it is the sole action. -/
theorem claim_C5 (acts : List Act) (h : acts ≠ []) :
    ∃ a, latest_action acts = some a ∧ a ∈ acts ∧
      (∀ b ∈ acts, actKey b ≤ actKey a) ∧
      (acts.filter (fun b => decide (actKey b = actKey a))).getLast? = some a ∧
      (a.dt = none → ∀ b ∈ acts, actKey b = 0) := by
  have hsp := sortLt_perm (ltKey actKey) acts
  have hne : sortLt (ltKey actKey) acts ≠ [] := by
    intro he
    rw [he] at hsp
    exact h hsp.symm.eq_nil
  obtain ⟨a, ha⟩ : ∃ a, (sortLt (ltKey actKey) acts).getLast? = some a := by
    rcases hs : sortLt (ltKey actKey) acts with _ | ⟨x, xs⟩
    · exact absurd hs hne
    · exact ⟨(x :: xs).getLast (by simp), List.getLast?_eq_getLast_of_ne_nil (by simp)⟩
  have hmem : a ∈ acts := hsp.mem_iff.mp (mem_of_getLast?_eq _ _ ha)
  have hmax : ∀ b ∈ acts, actKey b ≤ actKey a := by
    intro b hb
    have hbs : b ∈ sortLt (ltKey actKey) acts := hsp.mem_iff.mpr hb
    rcases pairwise_rel_getLast? _ (sortLt_pairwise actKey acts) a ha b hbs with h1 | h1
    · exact h1 ▸ Nat.le_refl _
    · exact h1
  refine ⟨a, ha, hmem, hmax, ?_, ?_⟩
  · have := getLast?_filter_eq (fun b => decide (actKey b = actKey a)) _ a ha (by simp)
    rwa [sortLt_filter_key] at this
  · intro hdt b hb
    have : actKey a = 0 := by simp [actKey, hdt]
    have := hmax b hb
    omega

/-- Claim C5 witness: a concrete application of the amended theorem. -/
theorem claim_C5_witness :
    ∃ a, latest_action [⟨some 3, none, some "x", none⟩, ⟨some 7, none, some "y", none⟩] = some a ∧
      a ∈ [⟨some 3, none, some "x", none⟩, ⟨some 7, none, some "y", none⟩] ∧
      (∀ b ∈ ([⟨some 3, none, some "x", none⟩, ⟨some 7, none, some "y", none⟩] : List Act), actKey b ≤ actKey a) ∧
      (([⟨some 3, none, some "x", none⟩, ⟨some 7, none, some "y", none⟩] : List Act).filter
        (fun b => decide (actKey b = actKey a))).getLast? = some a ∧
      (a.dt = none → ∀ b ∈ ([⟨some 3, none, some "x", none⟩, ⟨some 7, none, some "y", none⟩] : List Act), actKey b = 0) :=
  claim_C5 [⟨some 3, none, some "x", none⟩, ⟨some 7, none, some "y", none⟩] (by decide)

/-! Characterisation of the cosponsor batch dedupe. -/

/-- The merge keeps the key fields of the current entry. -/
theorem cosKey_mergeCos (cur r : CosRow) : cosKey (mergeCos cur r) = cosKey cur := rfl

/-- Merging a row into an optional current entry: the dict lookup-or-insert
step restricted to one key. -/
def mergeSeed : Option CosRow → CosRow → Option CosRow
  | none, r => some r
  | some cur, r => some (mergeCos cur r)

theorem find?_dedupeStep (acc : List CosRow) (r : CosRow) (k : Int × String × Int × String) :
    (dedupeStep acc r).find? (fun x => decide (cosKey x = k)) =
      if cosKey r = k then mergeSeed (acc.find? (fun x => decide (cosKey x = k))) r
      else acc.find? (fun x => decide (cosKey x = k)) := by
  unfold dedupeStep
  cases hany : acc.any (fun x => decide (cosKey x = cosKey r)) with
  | true =>
    simp only [hany, if_true]
    rw [List.find?_map]
    have hcongr : ((fun x => decide (cosKey x = k)) ∘
        (fun x => if cosKey x = cosKey r then mergeCos x r else x)) =
        (fun x => decide (cosKey x = k)) := by
      funext x
      by_cases hx : cosKey x = cosKey r <;> simp [hx, cosKey_mergeCos]
    rw [hcongr]
    by_cases hrk : cosKey r = k
    · simp only [hrk, if_true]
      rcases hf : acc.find? (fun x => decide (cosKey x = k)) with _ | cur
      · exfalso
        rw [List.any_eq_true] at hany
        obtain ⟨x, hxmem, hx⟩ := hany
        rw [List.find?_eq_none] at hf
        have hx' : cosKey x = cosKey r := by simpa using hx
        have hfx := hf x hxmem
        simp only [decide_eq_true_eq] at hfx
        exact hfx (by rw [hx', hrk])
      · have hck : cosKey cur = k := by simpa using List.find?_some hf
        have hcr : cosKey cur = cosKey r := by rw [hck, hrk]
        simp [Option.map, hcr, mergeSeed, hrk]
    · simp only [hrk, if_false]
      rcases hf : acc.find? (fun x => decide (cosKey x = k)) with _ | cur
      · simp
      · have hck : cosKey cur = k := by simpa using List.find?_some hf
        have hne : ¬ (cosKey cur = cosKey r) := by
          rw [hck]; intro hc; exact hrk hc.symm
        simp [Option.map, hne]
  | false =>
    simp only [hany, Bool.false_eq_true, if_false]
    rw [List.find?_append]
    by_cases hrk : cosKey r = k
    · rcases hf : acc.find? (fun x => decide (cosKey x = k)) with _ | cur
      · simp [List.find?_cons, hrk, mergeSeed]
      · exfalso
        have hck : cosKey cur = k := by simpa using List.find?_some hf
        have hmem : cur ∈ acc := List.mem_of_find?_eq_some hf
        have : acc.any (fun x => decide (cosKey x = cosKey r)) = true :=
          List.any_eq_true.mpr ⟨cur, hmem, by simp [hck, hrk]⟩
        rw [hany] at this
        exact Bool.false_ne_true this
    · rcases hf : acc.find? (fun x => decide (cosKey x = k)) with _ | cur <;>
        simp [List.find?_cons, hrk]

theorem find?_foldl_dedupe (rows : List CosRow) (acc : List CosRow) (k : Int × String × Int × String) :
    ((rows.foldl dedupeStep acc).find? (fun x => decide (cosKey x = k))) =
      (rows.filter (fun r => decide (cosKey r = k))).foldl mergeSeed
        (acc.find? (fun x => decide (cosKey x = k))) := by
  induction rows generalizing acc with
  | nil => simp
  | cons r rows ih =>
    rw [List.foldl_cons, ih, List.filter_cons, find?_dedupeStep]
    by_cases hrk : cosKey r = k <;> simp [hrk]

theorem dedupe_find (rows : List CosRow) (k : Int × String × Int × String) :
    (dedupe_cosponsors rows).find? (fun x => decide (cosKey x = k)) =
      (rows.filter (fun r => decide (cosKey r = k))).foldl mergeSeed none := by
  unfold dedupe_cosponsors
  rw [find?_foldl_dedupe]
  simp

theorem foldl_mergeSeed_some (c : CosRow) (rs : List CosRow) :
    rs.foldl mergeSeed (some c) = some (rs.foldl mergeCos c) := by
  induction rs generalizing c with
  | nil => rfl
  | cons r rs ih => rw [List.foldl_cons, List.foldl_cons]; exact ih (mergeCos c r)

/-! Field-wise characterisation of a merge run. -/

/-- The last non-null value in a list of nullable observations. -/
def lastSome (l : List (Option α)) : Option α := (l.filterMap id).getLast?

/-- The first non-null value in a list of nullable observations. -/
def firstSome (l : List (Option α)) : Option α := (l.filterMap id).head?

theorem mergeRun_party (c : CosRow) (rs : List CosRow) :
    (rs.foldl mergeCos c).party = (rs.map (·.party)).foldl (fun cur new => pyOrS new cur) c.party := by
  induction rs generalizing c with
  | nil => rfl
  | cons r rs ih => rw [List.foldl_cons, List.map_cons, List.foldl_cons]; exact ih (mergeCos c r)

theorem mergeRun_fullname (c : CosRow) (rs : List CosRow) :
    (rs.foldl mergeCos c).fullname = (rs.map (·.fullname)).foldl (fun cur new => pyOrS new cur) c.fullname := by
  induction rs generalizing c with
  | nil => rfl
  | cons r rs ih => rw [List.foldl_cons, List.map_cons, List.foldl_cons]; exact ih (mergeCos c r)

theorem mergeRun_state (c : CosRow) (rs : List CosRow) :
    (rs.foldl mergeCos c).state = (rs.map (·.state)).foldl (fun cur new => pyOrS new cur) c.state := by
  induction rs generalizing c with
  | nil => rfl
  | cons r rs ih => rw [List.foldl_cons, List.map_cons, List.foldl_cons]; exact ih (mergeCos c r)

theorem mergeRun_joined (c : CosRow) (rs : List CosRow) :
    (rs.foldl mergeCos c).joined = (rs.map (·.joined)).foldl (fun cur new => sqlCoalesce new cur) c.joined := by
  induction rs generalizing c with
  | nil => rfl
  | cons r rs ih => rw [List.foldl_cons, List.map_cons, List.foldl_cons]; exact ih (mergeCos c r)

/-- A coalesce-style fold computes the last non-null value, seeded included. -/
theorem coalesce_fold_lastSome (init : Option α) (l : List (Option α)) :
    l.foldl (fun cur new => sqlCoalesce new cur) init = lastSome (init :: l) := by
  induction l generalizing init with
  | nil => rcases init with _ | v <;> simp [lastSome]
  | cons o t ih =>
    rw [List.foldl_cons, ih (sqlCoalesce o init)]
    rcases o with _ | v
    · rcases init with _ | w <;> simp [lastSome, sqlCoalesce]
    · rcases init with _ | w <;>
        simp [lastSome, sqlCoalesce, List.getLast?_cons_cons]

/-- Under the extraction invariant that string fields are never the empty
string, the Python truthiness fold agrees with the null-coalescing fold. -/
theorem fold_pyOrS_eq_coalesce (init : Option String) (l : List (Option String))
    (hl : ∀ o ∈ l, o ≠ some "") :
    l.foldl (fun cur new => pyOrS new cur) init =
      l.foldl (fun cur new => sqlCoalesce new cur) init := by
  induction l generalizing init with
  | nil => rfl
  | cons o t ih =>
    rw [List.foldl_cons, List.foldl_cons]
    have ho := hl o (List.mem_cons_self o t)
    have hstep : pyOrS o init = sqlCoalesce o init := by
      rcases o with _ | s
      · rfl
      · have : s ≠ "" := by intro hs; exact ho (by rw [hs])
        simp [pyOrS, sqlCoalesce, truthyS, this]
    rw [hstep]
    exact ih _ (fun o ho' => hl o (List.mem_cons_of_mem _ ho'))

/-- The claim-side description of the merged is_original flag. -/
def specOrig (os : List (Option Bool)) : Option Bool :=
  if some true ∈ os then some true else firstSome os

theorem mergeRun_is_orig_fold (c : CosRow) (rs : List CosRow) :
    (rs.foldl mergeCos c).is_orig = (rs.map (·.is_orig)).foldl
      (fun cur new => if new = some true ∨ cur = some true then some true
                      else if new.isSome then new else cur) c.is_orig := by
  induction rs generalizing c with
  | nil => rfl
  | cons r rs ih => rw [List.foldl_cons, List.map_cons, List.foldl_cons]; exact ih (mergeCos c r)

theorem specOrig_step (a b : Option Bool) (t : List (Option Bool)) :
    specOrig ((if b = some true ∨ a = some true then some true
               else if b.isSome then b else a) :: t) = specOrig (a :: b :: t) := by
  rcases a with _ | av <;> (try cases av) <;> rcases b with _ | bv <;> (try cases bv) <;>
    simp [specOrig, firstSome, List.filterMap_cons, List.mem_cons] <;>
    by_cases ht : some true ∈ t <;> simp [ht]

theorem fold_orig_specOrig (init : Option Bool) (l : List (Option Bool)) :
    l.foldl (fun cur new => if new = some true ∨ cur = some true then some true
                            else if new.isSome then new else cur) init = specOrig (init :: l) := by
  induction l generalizing init with
  | nil =>
    rcases init with _ | v
    · rfl
    · cases v <;> simp [specOrig, firstSome, List.filterMap_cons]
  | cons o t ih =>
    rw [List.foldl_cons, ih, specOrig_step]

/-! Claims C1 and C7: the cosponsor batch merge reducer. -/

/-- Claim C1 counterexample.  For the spec's own example batch (observation
1 with party D, observation 2 with party R, same key), the reducer keeps
party R: a later non-null value OVERRIDES the earlier one, refuting the
claimed first-non-null-wins policy which demands party D. -/
theorem claim_C1_counterexample :
    dedupe_cosponsors
      [⟨1, "hr", 1, "B001", none, some "D", none, none, none⟩,
       ⟨1, "hr", 1, "B001", some "Jane Doe", some "R", none, none, none⟩] =
      [⟨1, "hr", 1, "B001", some "Jane Doe", some "R", none, none, none⟩] ∧
    (some "R" : Option String) ≠ some "D" := by
  refine ⟨by decide, by decide⟩

/-- Claim C1, amended: for rows as produced by the extractor (string fields
are never the empty string), the batch reducer keeps, for each of fullName,
party, state, joinedDate, the LAST non-null value seen in observation
order — a later non-null value overrides an already-set field (so in the
spec's example the merged row has party R, not D). -/
theorem claim_C1 (rows : List CosRow) (k : Int × String × Int × String)
    (hclean : ∀ r ∈ rows, r.fullname ≠ some "" ∧ r.party ≠ some "" ∧ r.state ≠ some "")
    (hk : rows.filter (fun r => decide (cosKey r = k)) ≠ []) :
    ∃ m, (dedupe_cosponsors rows).find? (fun x => decide (cosKey x = k)) = some m ∧
      m.fullname = lastSome ((rows.filter (fun r => decide (cosKey r = k))).map (·.fullname)) ∧
      m.party = lastSome ((rows.filter (fun r => decide (cosKey r = k))).map (·.party)) ∧
      m.state = lastSome ((rows.filter (fun r => decide (cosKey r = k))).map (·.state)) ∧
      m.joined = lastSome ((rows.filter (fun r => decide (cosKey r = k))).map (·.joined)) := by
  rcases hobs : rows.filter (fun r => decide (cosKey r = k)) with _ | ⟨r0, rs⟩
  · exact absurd hobs hk
  have hsub : ∀ r ∈ (r0 :: rs), r ∈ rows := by
    intro r hr
    rw [← hobs] at hr
    exact (List.mem_filter.mp hr).1
  have hfn : ∀ o ∈ rs.map (·.fullname), o ≠ some "" := by
    intro o ho
    obtain ⟨r, hr, rfl⟩ := List.mem_map.mp ho
    exact (hclean r (hsub r (List.mem_cons_of_mem _ hr))).1
  have hpa : ∀ o ∈ rs.map (·.party), o ≠ some "" := by
    intro o ho
    obtain ⟨r, hr, rfl⟩ := List.mem_map.mp ho
    exact (hclean r (hsub r (List.mem_cons_of_mem _ hr))).2.1
  have hst : ∀ o ∈ rs.map (·.state), o ≠ some "" := by
    intro o ho
    obtain ⟨r, hr, rfl⟩ := List.mem_map.mp ho
    exact (hclean r (hsub r (List.mem_cons_of_mem _ hr))).2.2
  refine ⟨rs.foldl mergeCos r0, ?_, ?_, ?_, ?_, ?_⟩
  · rw [dedupe_find, hobs, List.foldl_cons]
    exact foldl_mergeSeed_some r0 rs
  · rw [List.map_cons, mergeRun_fullname, fold_pyOrS_eq_coalesce _ _ hfn,
      coalesce_fold_lastSome]
  · rw [List.map_cons, mergeRun_party, fold_pyOrS_eq_coalesce _ _ hpa,
      coalesce_fold_lastSome]
  · rw [List.map_cons, mergeRun_state, fold_pyOrS_eq_coalesce _ _ hst,
      coalesce_fold_lastSome]
  · rw [List.map_cons, mergeRun_joined, coalesce_fold_lastSome]

/-- Claim C1 witness: a concrete application of the amended theorem. -/
theorem claim_C1_witness :
    ∃ m, (dedupe_cosponsors
        [⟨1, "hr", 1, "B1", some "Ann Smith", none, none, none, none⟩,
         ⟨1, "hr", 1, "B1", some "A. Smith", some "D", none, some 5, none⟩]).find?
        (fun x => decide (cosKey x = (1, "hr", 1, "B1"))) = some m ∧
      m.fullname = lastSome (([⟨1, "hr", 1, "B1", some "Ann Smith", none, none, none, none⟩,
         ⟨1, "hr", 1, "B1", some "A. Smith", some "D", none, some 5, none⟩] : List CosRow).filter
        (fun r => decide (cosKey r = (1, "hr", 1, "B1"))) |>.map (·.fullname)) ∧
      m.party = lastSome (([⟨1, "hr", 1, "B1", some "Ann Smith", none, none, none, none⟩,
         ⟨1, "hr", 1, "B1", some "A. Smith", some "D", none, some 5, none⟩] : List CosRow).filter
        (fun r => decide (cosKey r = (1, "hr", 1, "B1"))) |>.map (·.party)) ∧
      m.state = lastSome (([⟨1, "hr", 1, "B1", some "Ann Smith", none, none, none, none⟩,
         ⟨1, "hr", 1, "B1", some "A. Smith", some "D", none, some 5, none⟩] : List CosRow).filter
        (fun r => decide (cosKey r = (1, "hr", 1, "B1"))) |>.map (·.state)) ∧
      m.joined = lastSome (([⟨1, "hr", 1, "B1", some "Ann Smith", none, none, none, none⟩,
         ⟨1, "hr", 1, "B1", some "A. Smith", some "D", none, some 5, none⟩] : List CosRow).filter
        (fun r => decide (cosKey r = (1, "hr", 1, "B1"))) |>.map (·.joined)) :=
  claim_C1
    [⟨1, "hr", 1, "B1", some "Ann Smith", none, none, none, none⟩,
     ⟨1, "hr", 1, "B1", some "A. Smith", some "D", none, some 5, none⟩]
    (1, "hr", 1, "B1") (by decide) (by decide)

/-- Claim C7: the merged isOriginalCosponsor flag is true as soon as any
observation of the key is true; otherwise it is the first non-null
observation (necessarily false), and null when every observation is null.
This is confirmed: with only true, false and null as possible values, the
code's last-non-null fallback coincides with the claimed first-non-null. -/
theorem claim_C7 (rows : List CosRow) (k : Int × String × Int × String)
    (hk : rows.filter (fun r => decide (cosKey r = k)) ≠ []) :
    ∃ m, (dedupe_cosponsors rows).find? (fun x => decide (cosKey x = k)) = some m ∧
      m.is_orig = (if some true ∈ (rows.filter (fun r => decide (cosKey r = k))).map (·.is_orig)
                   then some true
                   else firstSome ((rows.filter (fun r => decide (cosKey r = k))).map (·.is_orig))) := by
  rcases hobs : rows.filter (fun r => decide (cosKey r = k)) with _ | ⟨r0, rs⟩
  · exact absurd hobs hk
  refine ⟨rs.foldl mergeCos r0, ?_, ?_⟩
  · rw [dedupe_find, hobs, List.foldl_cons]
    exact foldl_mergeSeed_some r0 rs
  · rw [List.map_cons, mergeRun_is_orig_fold, fold_orig_specOrig]
    rfl

/-- Claim C7 witness: a concrete application of the theorem, with a true
observation surrounded by false and null ones. -/
theorem claim_C7_witness :
    ∃ m, (dedupe_cosponsors
        [⟨2, "s", 9, "B2", none, none, none, none, some false⟩,
         ⟨2, "s", 9, "B2", none, none, none, none, some true⟩,
         ⟨2, "s", 9, "B2", none, none, none, none, none⟩]).find?
        (fun x => decide (cosKey x = (2, "s", 9, "B2"))) = some m ∧
      m.is_orig = (if some true ∈ (([⟨2, "s", 9, "B2", none, none, none, none, some false⟩,
         ⟨2, "s", 9, "B2", none, none, none, none, some true⟩,
         ⟨2, "s", 9, "B2", none, none, none, none, none⟩] : List CosRow).filter
        (fun r => decide (cosKey r = (2, "s", 9, "B2")))).map (·.is_orig)
                   then some true
                   else firstSome ((([⟨2, "s", 9, "B2", none, none, none, none, some false⟩,
         ⟨2, "s", 9, "B2", none, none, none, none, some true⟩,
         ⟨2, "s", 9, "B2", none, none, none, none, none⟩] : List CosRow).filter
        (fun r => decide (cosKey r = (2, "s", 9, "B2")))).map (·.is_orig))) :=
  claim_C7
    [⟨2, "s", 9, "B2", none, none, none, none, some false⟩,
     ⟨2, "s", 9, "B2", none, none, none, none, some true⟩,
     ⟨2, "s", 9, "B2", none, none, none, none, none⟩]
    (2, "s", 9, "B2") (by decide)

/-! Claim C2: the bills upsert. -/

/-- Lookup of a bills row by key (first match). -/
def lookupBill (db : List (BillKey × BillRow)) (k : BillKey) : Option BillRow :=
  (db.find? (fun p => decide (p.1 = k))).map (·.2)

theorem sqlCoalesce_absorb (a b : Option α) : sqlCoalesce a (sqlCoalesce a b) = sqlCoalesce a b := by
  cases a <;> simp [sqlCoalesce]

theorem mergeBillRow_absorb (o r : BillRow) :
    mergeBillRow (mergeBillRow o r) r = mergeBillRow o r := by
  simp [mergeBillRow, sqlCoalesce_absorb]

theorem sqlCoalesce_self (a : Option α) : sqlCoalesce a a = a := by
  cases a <;> simp [sqlCoalesce]

theorem mergeBillRow_self (r : BillRow) : mergeBillRow r r = r := by
  cases r
  simp [mergeBillRow, sqlCoalesce_self]

theorem lookupBill_cons_ne (k' k : BillKey) (o : BillRow) (l : List (BillKey × BillRow))
    (h : k' ≠ k) : lookupBill ((k', o) :: l) k = lookupBill l k := by
  simp [lookupBill, List.find?_cons, h]

theorem lookup_upsertBill (db : List (BillKey × BillRow)) (k : BillKey) (r : BillRow) :
    lookupBill (upsertBill db k r) k =
      some (match lookupBill db k with
            | none => r
            | some old => mergeBillRow old r) := by
  induction db with
  | nil => simp [upsertBill, lookupBill]
  | cons p rest ih =>
    obtain ⟨k', o⟩ := p
    rw [upsertBill]
    by_cases hk : k' = k
    · subst hk
      simp [lookupBill, List.find?_cons]
    · simp only [hk, if_false]
      rw [lookupBill_cons_ne _ _ _ _ hk, ih, lookupBill_cons_ne _ _ _ _ hk]

theorem upsertBill_idem (db : List (BillKey × BillRow)) (k : BillKey) (r : BillRow) :
    upsertBill (upsertBill db k r) k r = upsertBill db k r := by
  induction db with
  | nil => simp [upsertBill, mergeBillRow_self]
  | cons p rest ih =>
    obtain ⟨k', o⟩ := p
    rw [upsertBill]
    by_cases hk : k' = k
    · subst hk
      simp [upsertBill, mergeBillRow_absorb]
    · simp [upsertBill, hk, ih]

/-- Claim C2 counterexample.  With an existing row whose title is A and an
incoming row with title B (both non-null), the upsert stores B: the conflict
policy is coalesce(excluded, existing), so a non-null INCOMING value wins,
refuting the claimed keep-existing-non-null policy which demands A. -/
theorem claim_C2_counterexample :
    lookupBill
      (upsertBill [((1, "hr", 1), ⟨some "house", some "A", none, none, none, none, none⟩)]
        (1, "hr", 1) ⟨some "house", some "B", none, none, none, none, none⟩) (1, "hr", 1) =
      some ⟨some "house", some "B", none, none, none, none, none⟩ ∧
    (some "B" : Option String) ≠ some "A" := by
  refine ⟨by decide, by decide⟩

/-- Claim C2, amended: after the upsert the chamber column equals the
incoming chamber unconditionally, and every other column equals the INCOMING
value when that incoming value is non-null, else the existing value; in
particular ingesting the same document twice leaves the whole relation
unchanged, and no non-null field of the coalesced columns (all except
chamber) ever becomes null. -/
theorem claim_C2 (db : List (BillKey × BillRow)) (k : BillKey) (r old : BillRow)
    (h : lookupBill db k = some old) :
    lookupBill (upsertBill db k r) k = some (mergeBillRow old r) ∧
    (mergeBillRow old r).chamber = r.chamber ∧
    (mergeBillRow old r).title = (if r.title.isSome then r.title else old.title) ∧
    (mergeBillRow old r).introduced_date = (if r.introduced_date.isSome then r.introduced_date else old.introduced_date) ∧
    (mergeBillRow old r).latest_action = (if r.latest_action.isSome then r.latest_action else old.latest_action) ∧
    (mergeBillRow old r).latest_action_date = (if r.latest_action_date.isSome then r.latest_action_date else old.latest_action_date) ∧
    (mergeBillRow old r).sponsor_bioguide = (if r.sponsor_bioguide.isSome then r.sponsor_bioguide else old.sponsor_bioguide) ∧
    (mergeBillRow old r).sponsor_fullname = (if r.sponsor_fullname.isSome then r.sponsor_fullname else old.sponsor_fullname) ∧
    (old.title.isSome → ((mergeBillRow old r).title).isSome) ∧
    (old.introduced_date.isSome → ((mergeBillRow old r).introduced_date).isSome) ∧
    (old.latest_action.isSome → ((mergeBillRow old r).latest_action).isSome) ∧
    (old.latest_action_date.isSome → ((mergeBillRow old r).latest_action_date).isSome) ∧
    (old.sponsor_bioguide.isSome → ((mergeBillRow old r).sponsor_bioguide).isSome) ∧
    (old.sponsor_fullname.isSome → ((mergeBillRow old r).sponsor_fullname).isSome) ∧
    upsertBill (upsertBill db k r) k r = upsertBill db k r := by
  have hreg : ∀ (a b : Option String), b.isSome → (sqlCoalesce a b).isSome := by
    intro a b hb
    cases a <;> simp [sqlCoalesce, hb]
  have hregN : ∀ (a b : Option Nat), b.isSome → (sqlCoalesce a b).isSome := by
    intro a b hb
    cases a <;> simp [sqlCoalesce, hb]
  refine ⟨?_, rfl, rfl, rfl, rfl, rfl, rfl, rfl,
    hreg _ _, hregN _ _, hreg _ _, hregN _ _, hreg _ _, hreg _ _, upsertBill_idem db k r⟩
  rw [lookup_upsertBill, h]

/-- Claim C2 witness: a concrete application of the amended theorem. -/
theorem claim_C2_witness :
    lookupBill (upsertBill [((1, "hr", 7), ⟨some "house", some "Old title", none, none, none, none, some "Rep A"⟩)]
        (1, "hr", 7) ⟨some "house", none, some 3, none, none, some "B7", none⟩) (1, "hr", 7) =
      some (mergeBillRow ⟨some "house", some "Old title", none, none, none, none, some "Rep A"⟩
        ⟨some "house", none, some 3, none, none, some "B7", none⟩) ∧
    (mergeBillRow ⟨some "house", some "Old title", none, none, none, none, some "Rep A"⟩
        ⟨some "house", none, some 3, none, none, some "B7", none⟩).chamber = some "house" ∧
    (mergeBillRow ⟨some "house", some "Old title", none, none, none, none, some "Rep A"⟩
        ⟨some "house", none, some 3, none, none, some "B7", none⟩).title = some "Old title" ∧
    upsertBill (upsertBill [((1, "hr", 7), ⟨some "house", some "Old title", none, none, none, none, some "Rep A"⟩)]
        (1, "hr", 7) ⟨some "house", none, some 3, none, none, some "B7", none⟩)
      (1, "hr", 7) ⟨some "house", none, some 3, none, none, some "B7", none⟩ =
    upsertBill [((1, "hr", 7), ⟨some "house", some "Old title", none, none, none, none, some "Rep A"⟩)]
      (1, "hr", 7) ⟨some "house", none, some 3, none, none, some "B7", none⟩ := by
  have h := claim_C2 [((1, "hr", 7), ⟨some "house", some "Old title", none, none, none, none, some "Rep A"⟩)]
    (1, "hr", 7) ⟨some "house", none, some 3, none, none, some "B7", none⟩
    ⟨some "house", some "Old title", none, none, none, none, some "Rep A"⟩ (by decide)
  exact ⟨h.1, h.2.1, by decide, h.2.2.2.2.2.2.2.2.2.2.2.2.2.2⟩

/-! Claim C3: identity resolution. -/

theorem sqlCoalesce_of_isSome (a b : Option α) (h : a.isSome) : sqlCoalesce a b = a := by
  simp [sqlCoalesce, h]

theorem pyOrI_eq_coalesce (a b : Option Int) (h : a ≠ some 0) : pyOrI a b = sqlCoalesce a b := by
  rcases a with _ | v
  · rfl
  · have : v ≠ 0 := fun hv => h (by rw [hv])
    simp [pyOrI, truthyI, sqlCoalesce, this]

theorem pyOrS_eq_coalesce (a b : Option String) (h : a ≠ some "") : pyOrS a b = sqlCoalesce a b := by
  rcases a with _ | s
  · rfl
  · have : s ≠ "" := fun hs => h (by rw [hs])
    simp [pyOrS, truthyS, sqlCoalesce, this]

theorem sqlCoalesce_ne (a b : Option α) (x : α) (ha : a ≠ some x) (hb : b ≠ some x) :
    sqlCoalesce a b ≠ some x := by
  rcases a with _ | v
  · simpa [sqlCoalesce] using hb
  · simpa [sqlCoalesce] using ha

theorem not_isNone_isSome (a : Option α) (h : ¬ a.isNone = true) : a.isSome = true := by
  rcases a with _ | v <;> simp_all

/-- Claim C3 counterexample.  A document whose only identity content is a
congress element with text 0 resolves congress from the content pass to the
non-null value 0; the claim then demands that the filename pass not touch
it.  But the coalescing uses Python or (truthiness), so the filename's
congress 9 overrides the already-set 0. -/
theorem claim_C3_counterexample :
    parse_identity_from_xml (el "billstatus" "" [el "congress" "0" []]) = (some 0, none, none) ∧
    resolve_identity (el "billstatus" "" [el "congress" "0" []]) "BILLSTATUS-9hr2.xml" =
      IdRes.ok 9 "hr" 2 ∧
    (9 : Int) ≠ 0 := by
  refine ⟨by decide, by decide, by decide⟩

/-- Claim C3, amended: provided neither the content pass nor the filename
pass yields a numeric identity value of 0 or an empty-string type (the
Python-falsy values), each of congress, billType, billNumber is
filled first from document content, then (only if still null) from the
filename pattern, then (only if still null) from the directory structure,
and parse_one fails with missing identity exactly when some field is still
null after the passes. -/
theorem claim_C3 (root : Elem) (path : String)
    (c1 c2 c3 n1 n2 n3 : Option Int) (t1 t2 t3 : Option String)
    (h1 : parse_identity_from_xml root = (c1, t1, n1))
    (h2 : parse_identity_from_filename path = (c2, t2, n2))
    (h3 : parse_identity_from_dirs path = (c3, t3, n3))
    (hc1 : c1 ≠ some 0) (hn1 : n1 ≠ some 0) (ht1 : t1 ≠ some "")
    (hc2 : c2 ≠ some 0) (hn2 : n2 ≠ some 0) (ht2 : t2 ≠ some "") :
    resolve_identity root path =
      (match (sqlCoalesce (sqlCoalesce c1 c2) c3, sqlCoalesce (sqlCoalesce t1 t2) t3,
              sqlCoalesce (sqlCoalesce n1 n2) n3) with
       | (some c, some t, some n) => IdRes.ok c (strLower t) n
       | _ => IdRes.err "missing identity") := by
  unfold resolve_identity
  rw [h1, h2, h3]
  by_cases hA : c1.isNone ∨ t1.isNone ∨ n1.isNone
  · simp only [hA, if_true]
    rw [pyOrI_eq_coalesce _ _ hc1, pyOrS_eq_coalesce _ _ ht1, pyOrI_eq_coalesce _ _ hn1]
    by_cases hB : (sqlCoalesce c1 c2).isNone ∨ (sqlCoalesce t1 t2).isNone ∨ (sqlCoalesce n1 n2).isNone
    · simp only [hB, if_true]
      rw [pyOrI_eq_coalesce _ _ (sqlCoalesce_ne _ _ _ hc1 hc2),
        pyOrS_eq_coalesce _ _ (sqlCoalesce_ne _ _ _ ht1 ht2),
        pyOrI_eq_coalesce _ _ (sqlCoalesce_ne _ _ _ hn1 hn2)]
    · simp only [hB, if_false]
      push_neg at hB
      obtain ⟨hc, ht, hn⟩ := hB
      rw [sqlCoalesce_of_isSome _ c3 (not_isNone_isSome _ hc),
        sqlCoalesce_of_isSome _ t3 (not_isNone_isSome _ ht),
        sqlCoalesce_of_isSome _ n3 (not_isNone_isSome _ hn)]
  · push_neg at hA
    obtain ⟨hc, ht, hn⟩ := hA
    rcases c1 with _ | cv
    · simp at hc
    rcases t1 with _ | tv
    · simp at ht
    rcases n1 with _ | nv
    · simp at hn
    simp [sqlCoalesce]

/-- Claim C3 witness: content supplies only the congress, the filename
matches nothing, and the directory structure supplies all three; the
resolved identity combines the content congress with the directory type and
number. -/
theorem claim_C3_witness :
    resolve_identity (el "billstatus" "" [el "congress" "117" []])
        "data/117/bills/hr/hr55/fdsys_billstatus.xml" =
      (match (sqlCoalesce (sqlCoalesce (some 117) none) (some 117),
              sqlCoalesce (sqlCoalesce none none) (some "hr"),
              sqlCoalesce (sqlCoalesce none none) (some 55)) with
       | (some c, some t, some n) => IdRes.ok c (strLower t) n
       | _ => IdRes.err "missing identity") :=
  claim_C3 (el "billstatus" "" [el "congress" "117" []])
    "data/117/bills/hr/hr55/fdsys_billstatus.xml"
    (some 117) none (some 117) none none (some 55) none none (some "hr")
    (by decide) (by decide) (by decide)
    (by decide) (by decide) (by decide)
    (by decide) (by decide) (by decide)

/-! Claim C9: datetime assignment inside action extraction. -/

/-- The tag test of the datetime branch (source line 175). -/
def dtTag (kid : Elem) : Bool :=
  strEnds (strLower kid.tag) "actiondatetime" || strEnds (strLower kid.tag) "actiondate"

/-- The tag-and-text test of the text branch (source line 176): not a
datetime tag, the tag ends with text, and the stripped text is non-empty. -/
def textTag (kid : Elem) : Bool :=
  !dtTag kid && strEnds (strLower kid.tag) "text" && decide (strStrip kid.text ≠ "")

theorem eafStep_dt_pos (sdt : String → Option Nat) (st : Act) (kid : Elem)
    (h : dtTag kid = true) : (eafStep sdt st kid).dt = sdt (strStrip kid.text) := by
  rw [dtTag, Bool.or_eq_true] at h
  unfold eafStep
  rw [if_pos h]

theorem eafStep_dt_neg (sdt : String → Option Nat) (st : Act) (kid : Elem)
    (h : dtTag kid = false) : (eafStep sdt st kid).dt = st.dt := by
  rw [dtTag, Bool.or_eq_false_iff] at h
  unfold eafStep
  rw [if_neg (by simp [h.1, h.2])]
  split_ifs <;> rfl

theorem eafStep_text_pos (sdt : String → Option Nat) (st : Act) (kid : Elem)
    (h : textTag kid = true) : (eafStep sdt st kid).text = some (strStrip kid.text) := by
  simp only [textTag, Bool.and_eq_true, Bool.not_eq_true', decide_eq_true_eq] at h
  obtain ⟨⟨hdt, htx⟩, hne⟩ := h
  rw [dtTag, Bool.or_eq_false_iff] at hdt
  unfold eafStep
  rw [if_neg (by simp [hdt.1, hdt.2]), if_pos ⟨htx, hne⟩]

theorem eafStep_text_neg (sdt : String → Option Nat) (st : Act) (kid : Elem)
    (h : textTag kid = false) : (eafStep sdt st kid).text = st.text := by
  unfold eafStep
  by_cases h1 : strEnds (strLower kid.tag) "actiondatetime" = true ∨
      strEnds (strLower kid.tag) "actiondate" = true
  · rw [if_pos h1]
  · rw [if_neg h1]
    by_cases h2 : strEnds (strLower kid.tag) "text" = true ∧ strStrip kid.text ≠ ""
    · exfalso
      have hdt : dtTag kid = false := by
        rw [dtTag, Bool.or_eq_false_iff]
        push_neg at h1
        exact ⟨Bool.eq_false_iff.mpr h1.1, Bool.eq_false_iff.mpr h1.2⟩
      rw [textTag, hdt] at h
      simp only [Bool.not_false, Bool.true_and, Bool.and_eq_false_iff] at h
      rcases h with h | h
      · rw [h2.1] at h
        exact absurd h (by simp)
      · rw [decide_eq_false_iff_not] at h
        exact h h2.2
    · rw [if_neg h2]
      split_ifs <;> rfl

theorem eaf_dt_general (sdt : String → Option Nat) (kids : List Elem) (st : Act) :
    (kids.foldl (eafStep sdt) st).dt =
      (match (kids.filter dtTag).getLast? with
       | none => st.dt
       | some kid => sdt (strStrip kid.text)) := by
  induction kids generalizing st with
  | nil => rfl
  | cons kid kids ih =>
    rw [List.foldl_cons, ih (eafStep sdt st kid), List.filter_cons]
    cases hdt : dtTag kid with
    | true =>
      simp only [hdt, if_true]
      rcases hfl : (kids.filter dtTag).getLast? with _ | k2
      · rcases hfe : kids.filter dtTag with _ | ⟨y, ys⟩
        · simp [eafStep_dt_pos sdt st kid hdt]
        · rw [hfe] at hfl; simp at hfl
      · rcases hfe : kids.filter dtTag with _ | ⟨y, ys⟩
        · rw [hfe] at hfl; simp at hfl
        · rw [hfe] at hfl
          rw [List.getLast?_cons_cons, hfl]
    | false =>
      simp only [hdt, Bool.false_eq_true, if_false, eafStep_dt_neg sdt st kid hdt]

theorem eaf_text_general (sdt : String → Option Nat) (kids : List Elem) (st : Act) :
    (kids.foldl (eafStep sdt) st).text =
      (match (kids.filter textTag).getLast? with
       | none => st.text
       | some kid => some (strStrip kid.text)) := by
  induction kids generalizing st with
  | nil => rfl
  | cons kid kids ih =>
    rw [List.foldl_cons, ih (eafStep sdt st kid), List.filter_cons]
    cases htx : textTag kid with
    | true =>
      simp only [htx, if_true]
      rcases hfl : (kids.filter textTag).getLast? with _ | k2
      · rcases hfe : kids.filter textTag with _ | ⟨y, ys⟩
        · simp [eafStep_text_pos sdt st kid htx]
        · rw [hfe] at hfl; simp at hfl
      · rcases hfe : kids.filter textTag with _ | ⟨y, ys⟩
        · rw [hfe] at hfl; simp at hfl
        · rw [hfe] at hfl
          rw [List.getLast?_cons_cons, hfl]
    | false =>
      simp only [htx, Bool.false_eq_true, if_false, eafStep_text_neg sdt st kid htx]

/-- Claim C9: in the per-action child loop the datetime field is
last-assignment-wins and assigned unconditionally — the extracted datetime
is exactly the permissive parse of the LAST direct child whose tag ends in
actiondatetime or actiondate, whatever earlier children parsed to, and null
when that parse fails (for dateutil, empty text fails); by contrast the
text field only accepts non-empty text, keeping the last non-empty one. -/
theorem claim_C9 (sdt : String → Option Nat) (a : Elem) :
    (extract_action_fields sdt a).dt =
      (match (a.kids.filter dtTag).getLast? with
       | none => none
       | some kid => sdt (strStrip kid.text)) ∧
    (extract_action_fields sdt a).text =
      (match (a.kids.filter textTag).getLast? with
       | none => none
       | some kid => some (strStrip kid.text)) := by
  exact ⟨eaf_dt_general sdt a.kids ⟨none, none, none, none⟩,
    eaf_text_general sdt a.kids ⟨none, none, none, none⟩⟩

/-! Claim C8: failed parses are skipped without any persistence. -/

/-- Claim C8: for every document whose parse fails (XML parse error or
missing identity both surface as an err result), the driver increments the
failure counter by exactly one, leaves the success counter, the bills
relation, both buffers and the statement trace untouched (zero rows written
to any of the three relations), and continues the fold with the next
document. -/
theorem claim_C8 (cfg : EtlConfig) (st : DrvSt) (msg : String) :
    (process_file cfg st (.err msg)).bad = st.bad + 1 ∧
    (process_file cfg st (.err msg)).ok = st.ok ∧
    (process_file cfg st (.err msg)).events = st.events ∧
    (process_file cfg st (.err msg)).bills = st.bills ∧
    (process_file cfg st (.err msg)).actions_buf = st.actions_buf ∧
    (process_file cfg st (.err msg)).cosponsors_buf = st.cosponsors_buf ∧
    (process_file cfg st (.err msg)).batch_bills = st.batch_bills ∧
    (∀ rest : List ParseOut, (ParseOut.err msg :: rest).foldl (process_file cfg) st =
      rest.foldl (process_file cfg) { st with bad := st.bad + 1 }) :=
  ⟨rfl, rfl, rfl, rfl, rfl, rfl, rfl, fun _ => rfl⟩

/-! Claim C10: flush_buffers leaves both buffers empty, and across a run
every buffered row is handed to the store in exactly one flush. -/

/-- All action rows submitted by flush statements in a trace, in order. -/
def flushedA (evs : List Event) : List ARow :=
  (evs.filterMap (fun e => match e with | .flushActions rows => some rows | _ => none)).flatten

/-- All raw cosponsor buffers consumed by flush statements in a trace, in
order (the bulk statement submits dedupe_cosponsors of each). -/
def flushedCraw (evs : List Event) : List CosRow :=
  (evs.filterMap (fun e => match e with | .flushCos raw => some raw | _ => none)).flatten

/-- The successfully parsed records of a result list, in order. -/
def okRecs (results : List ParseOut) : List PRec :=
  results.filterMap (fun r => match r with | .ok rec => some rec | .err _ => none)

/-- Every action row buffered over a run. -/
def allARows (results : List ParseOut) : List ARow :=
  ((okRecs results).map (fun rec => rec.actions.map (fun a => (rec.key, a, rec.source)))).flatten

/-- Every cosponsor row buffered over a run. -/
def allCRows (results : List ParseOut) : List CosRow :=
  ((okRecs results).map (fun rec => rec.cosponsors.map (cosRowOf rec.key))).flatten

theorem flushedA_append (e1 e2 : List Event) :
    flushedA (e1 ++ e2) = flushedA e1 ++ flushedA e2 := by
  unfold flushedA
  rw [List.filterMap_append, List.flatten_append]

theorem flushedCraw_append (e1 e2 : List Event) :
    flushedCraw (e1 ++ e2) = flushedCraw e1 ++ flushedCraw e2 := by
  unfold flushedCraw
  rw [List.filterMap_append, List.flatten_append]

theorem dedupeStep_ne_nil (acc : List CosRow) (r : CosRow) :
    dedupeStep acc r ≠ [] := by
  unfold dedupeStep
  split_ifs with h
  · intro he
    rw [List.map_eq_nil_iff] at he
    rw [he] at h
    simp at h
  · simp

theorem foldl_dedupeStep_ne_nil (rows : List CosRow) (acc : List CosRow) (h : acc ≠ []) :
    rows.foldl dedupeStep acc ≠ [] := by
  induction rows generalizing acc with
  | nil => exact h
  | cons r rows ih => exact ih (dedupeStep acc r) (dedupeStep_ne_nil acc r)

theorem dedupe_ne_nil (rows : List CosRow) (h : rows ≠ []) : dedupe_cosponsors rows ≠ [] := by
  rcases rows with _ | ⟨r, rs⟩
  · exact absurd rfl h
  · unfold dedupe_cosponsors
    rw [List.foldl_cons]
    exact foldl_dedupeStep_ne_nil rs (dedupeStep [] r) (dedupeStep_ne_nil [] r)

/-- What flush_buffers does to the trace: one flushActions statement when
the action buffer is non-empty, then one flushCos statement when the
cosponsor buffer is non-empty (its dedupe of a non-empty buffer is
non-empty). -/
theorem flushActionsStep_spec (st : DrvSt) :
    flushActionsStep st = { st with
      events := st.events ++ (if st.actions_buf ≠ [] then [Event.flushActions st.actions_buf] else []),
      actions_buf := [] } := by
  obtain ⟨ok, bad, bb, bl, ab, cb, ev⟩ := st
  unfold flushActionsStep
  by_cases ha : ab = []
  · subst ha
    simp
  · simp [ha]

theorem flushCosStep_spec (st : DrvSt) :
    flushCosStep st = { st with
      events := st.events ++ (if st.cosponsors_buf ≠ [] then [Event.flushCos st.cosponsors_buf] else []),
      cosponsors_buf := [] } := by
  obtain ⟨ok, bad, bb, bl, ab, cb, ev⟩ := st
  unfold flushCosStep
  by_cases hc : cb = []
  · subst hc
    simp
  · simp [hc, dedupe_ne_nil cb hc]

theorem flush_buffers_spec (st : DrvSt) :
    flush_buffers st = { st with
      events := st.events ++
        ((if st.actions_buf ≠ [] then [Event.flushActions st.actions_buf] else []) ++
         (if st.cosponsors_buf ≠ [] then [Event.flushCos st.cosponsors_buf] else [])),
      actions_buf := [], cosponsors_buf := [] } := by
  unfold flush_buffers
  rw [flushActionsStep_spec, flushCosStep_spec]
  obtain ⟨ok, bad, bb, bl, ab, cb, ev⟩ := st
  simp

theorem flush_buffers_actions_nil (st : DrvSt) : (flush_buffers st).actions_buf = [] := by
  rw [flush_buffers_spec]

theorem flush_buffers_cos_nil (st : DrvSt) : (flush_buffers st).cosponsors_buf = [] := by
  rw [flush_buffers_spec]

theorem flushedA_flushIf (st : DrvSt) :
    flushedA ((if st.actions_buf ≠ [] then [Event.flushActions st.actions_buf] else []) ++
      (if st.cosponsors_buf ≠ [] then [Event.flushCos st.cosponsors_buf] else [])) =
      st.actions_buf := by
  rw [flushedA_append]
  have h2 : flushedA (if st.cosponsors_buf ≠ [] then [Event.flushCos st.cosponsors_buf] else []) = [] := by
    by_cases hc : st.cosponsors_buf = []
    · rw [if_neg (not_not_intro hc)]
      rfl
    · rw [if_pos hc]
      rfl
  rw [h2, List.append_nil]
  by_cases ha : st.actions_buf = []
  · rw [if_neg (not_not_intro ha), ha]
    rfl
  · rw [if_pos ha]
    show st.actions_buf ++ [] = st.actions_buf
    exact List.append_nil _

theorem flushedCraw_flushIf (st : DrvSt) :
    flushedCraw ((if st.actions_buf ≠ [] then [Event.flushActions st.actions_buf] else []) ++
      (if st.cosponsors_buf ≠ [] then [Event.flushCos st.cosponsors_buf] else [])) =
      st.cosponsors_buf := by
  rw [flushedCraw_append]
  have h1 : flushedCraw (if st.actions_buf ≠ [] then [Event.flushActions st.actions_buf] else []) = [] := by
    by_cases ha : st.actions_buf = []
    · rw [if_neg (not_not_intro ha)]
      rfl
    · rw [if_pos ha]
      rfl
  rw [h1, List.nil_append]
  by_cases hc : st.cosponsors_buf = []
  · rw [if_neg (not_not_intro hc), hc]
    rfl
  · rw [if_pos hc]
    show st.cosponsors_buf ++ [] = st.cosponsors_buf
    exact List.append_nil _

theorem flush_inv_A (st : DrvSt) :
    flushedA (flush_buffers st).events ++ (flush_buffers st).actions_buf =
      flushedA st.events ++ st.actions_buf := by
  rw [flush_buffers_spec]
  show flushedA (st.events ++ _) ++ [] = _
  rw [List.append_nil, flushedA_append, flushedA_flushIf]

theorem flush_inv_C (st : DrvSt) :
    flushedCraw (flush_buffers st).events ++ (flush_buffers st).cosponsors_buf =
      flushedCraw st.events ++ st.cosponsors_buf := by
  rw [flush_buffers_spec]
  show flushedCraw (st.events ++ _) ++ [] = _
  rw [List.append_nil, flushedCraw_append, flushedCraw_flushIf]

theorem pfFlushStep_inv_A (cfg : EtlConfig) (s : DrvSt) :
    flushedA (pfFlushStep cfg s).events ++ (pfFlushStep cfg s).actions_buf =
      flushedA s.events ++ s.actions_buf := by
  unfold pfFlushStep
  split_ifs
  · exact flush_inv_A s
  · rfl

theorem pfFlushStep_inv_C (cfg : EtlConfig) (s : DrvSt) :
    flushedCraw (pfFlushStep cfg s).events ++ (pfFlushStep cfg s).cosponsors_buf =
      flushedCraw s.events ++ s.cosponsors_buf := by
  unfold pfFlushStep
  split_ifs
  · exact flush_inv_C s
  · rfl

theorem pfCommitStep_inv_A (cfg : EtlConfig) (s : DrvSt) :
    flushedA (pfCommitStep cfg s).events ++ (pfCommitStep cfg s).actions_buf =
      flushedA s.events ++ s.actions_buf := by
  unfold pfCommitStep
  split_ifs
  · show flushedA ((flush_buffers s).events ++ [Event.commitEv]) ++ (flush_buffers s).actions_buf = _
    rw [flushedA_append]
    have hc : flushedA [Event.commitEv] = [] := rfl
    rw [hc, List.append_nil]
    exact flush_inv_A s
  · rfl

theorem pfCommitStep_inv_C (cfg : EtlConfig) (s : DrvSt) :
    flushedCraw (pfCommitStep cfg s).events ++ (pfCommitStep cfg s).cosponsors_buf =
      flushedCraw s.events ++ s.cosponsors_buf := by
  unfold pfCommitStep
  split_ifs
  · show flushedCraw ((flush_buffers s).events ++ [Event.commitEv]) ++ (flush_buffers s).cosponsors_buf = _
    rw [flushedCraw_append]
    have hc : flushedCraw [Event.commitEv] = [] := rfl
    rw [hc, List.append_nil]
    exact flush_inv_C s
  · rfl

theorem process_file_inv_A_ok (cfg : EtlConfig) (st : DrvSt) (rec : PRec) :
    flushedA (process_file cfg st (.ok rec)).events ++
      (process_file cfg st (.ok rec)).actions_buf =
      flushedA st.events ++ st.actions_buf ++
        rec.actions.map (fun a => (rec.key, a, rec.source)) := by
  show flushedA (pfCommitStep cfg (pfFlushStep cfg (pfIngest st rec))).events ++
    (pfCommitStep cfg (pfFlushStep cfg (pfIngest st rec))).actions_buf = _
  rw [pfCommitStep_inv_A, pfFlushStep_inv_A]
  show flushedA (st.events ++ [Event.upsertBillEv rec.key rec.bill]) ++
    (st.actions_buf ++ rec.actions.map (fun a => (rec.key, a, rec.source))) = _
  rw [flushedA_append]
  have hu : flushedA [Event.upsertBillEv rec.key rec.bill] = [] := rfl
  rw [hu, List.append_nil, List.append_assoc]

theorem process_file_inv_A_err (cfg : EtlConfig) (st : DrvSt) (msg : String) :
    flushedA (process_file cfg st (.err msg)).events ++
      (process_file cfg st (.err msg)).actions_buf =
      flushedA st.events ++ st.actions_buf := rfl

theorem process_file_inv_C_ok (cfg : EtlConfig) (st : DrvSt) (rec : PRec) :
    flushedCraw (process_file cfg st (.ok rec)).events ++
      (process_file cfg st (.ok rec)).cosponsors_buf =
      flushedCraw st.events ++ st.cosponsors_buf ++
        rec.cosponsors.map (cosRowOf rec.key) := by
  show flushedCraw (pfCommitStep cfg (pfFlushStep cfg (pfIngest st rec))).events ++
    (pfCommitStep cfg (pfFlushStep cfg (pfIngest st rec))).cosponsors_buf = _
  rw [pfCommitStep_inv_C, pfFlushStep_inv_C]
  show flushedCraw (st.events ++ [Event.upsertBillEv rec.key rec.bill]) ++
    (st.cosponsors_buf ++ rec.cosponsors.map (cosRowOf rec.key)) = _
  rw [flushedCraw_append]
  have hu : flushedCraw [Event.upsertBillEv rec.key rec.bill] = [] := rfl
  rw [hu, List.append_nil, List.append_assoc]

theorem process_file_inv_C_err (cfg : EtlConfig) (st : DrvSt) (msg : String) :
    flushedCraw (process_file cfg st (.err msg)).events ++
      (process_file cfg st (.err msg)).cosponsors_buf =
      flushedCraw st.events ++ st.cosponsors_buf := rfl

theorem allARows_cons_ok (rec : PRec) (rest : List ParseOut) :
    allARows (.ok rec :: rest) =
      rec.actions.map (fun a => (rec.key, a, rec.source)) ++ allARows rest := rfl

theorem allARows_cons_err (msg : String) (rest : List ParseOut) :
    allARows (.err msg :: rest) = allARows rest := rfl

theorem allCRows_cons_ok (rec : PRec) (rest : List ParseOut) :
    allCRows (.ok rec :: rest) =
      rec.cosponsors.map (cosRowOf rec.key) ++ allCRows rest := rfl

theorem allCRows_cons_err (msg : String) (rest : List ParseOut) :
    allCRows (.err msg :: rest) = allCRows rest := rfl

theorem run_inv_A (cfg : EtlConfig) (results : List ParseOut) (st : DrvSt) :
    flushedA (results.foldl (process_file cfg) st).events ++
      (results.foldl (process_file cfg) st).actions_buf =
      flushedA st.events ++ st.actions_buf ++ allARows results := by
  induction results generalizing st with
  | nil =>
    rw [List.foldl_nil, show allARows [] = [] from rfl, List.append_nil]
  | cons r rest ih =>
    rw [List.foldl_cons, ih]
    rcases r with rec | msg
    · rw [process_file_inv_A_ok, allARows_cons_ok, List.append_assoc, List.append_assoc]
    · rw [process_file_inv_A_err, allARows_cons_err]

theorem run_inv_C (cfg : EtlConfig) (results : List ParseOut) (st : DrvSt) :
    flushedCraw (results.foldl (process_file cfg) st).events ++
      (results.foldl (process_file cfg) st).cosponsors_buf =
      flushedCraw st.events ++ st.cosponsors_buf ++ allCRows results := by
  induction results generalizing st with
  | nil =>
    rw [List.foldl_nil, show allCRows [] = [] from rfl, List.append_nil]
  | cons r rest ih =>
    rw [List.foldl_cons, ih]
    rcases r with rec | msg
    · rw [process_file_inv_C_ok, allCRows_cons_ok, List.append_assoc, List.append_assoc]
    · rw [process_file_inv_C_err, allCRows_cons_err]

/-- Claim C10: flush_buffers leaves both buffers empty whatever they held on
entry, and consequently, over any complete run, the action rows handed to
the store by flush statements are exactly the buffered action rows (each in
exactly one flush), and likewise the cosponsor rows consumed by flushes
(each flush statement submitting the dedupe of its consumed buffer). -/
theorem claim_C10 :
    (∀ st : DrvSt, (flush_buffers st).actions_buf = [] ∧ (flush_buffers st).cosponsors_buf = []) ∧
    (∀ (cfg : EtlConfig) (results : List ParseOut),
      flushedA (run_etl cfg results).events = allARows results ∧
      flushedCraw (run_etl cfg results).events = allCRows results) := by
  refine ⟨fun st => ⟨flush_buffers_actions_nil st, flush_buffers_cos_nil st⟩, fun cfg results => ⟨?_, ?_⟩⟩
  · show flushedA ((flush_buffers (results.foldl (process_file cfg) ⟨0, 0, 0, [], [], [], []⟩)).events
      ++ [Event.commitEv]) = _
    rw [flushedA_append]
    have hc : flushedA [Event.commitEv] = [] := rfl
    rw [hc, List.append_nil]
    have h1 : flushedA (flush_buffers (results.foldl (process_file cfg) ⟨0, 0, 0, [], [], [], []⟩)).events
        ++ (flush_buffers (results.foldl (process_file cfg) ⟨0, 0, 0, [], [], [], []⟩)).actions_buf =
        flushedA (⟨0, 0, 0, [], [], [], []⟩ : DrvSt).events ++
          (⟨0, 0, 0, [], [], [], []⟩ : DrvSt).actions_buf ++ allARows results := by
      rw [flush_inv_A]
      exact run_inv_A cfg results _
    rw [flush_buffers_actions_nil, List.append_nil] at h1
    rw [h1, show flushedA (⟨0, 0, 0, [], [], [], []⟩ : DrvSt).events = [] from rfl,
      List.nil_append, List.nil_append]
  · show flushedCraw ((flush_buffers (results.foldl (process_file cfg) ⟨0, 0, 0, [], [], [], []⟩)).events
      ++ [Event.commitEv]) = _
    rw [flushedCraw_append]
    have hc : flushedCraw [Event.commitEv] = [] := rfl
    rw [hc, List.append_nil]
    have h1 : flushedCraw (flush_buffers (results.foldl (process_file cfg) ⟨0, 0, 0, [], [], [], []⟩)).events
        ++ (flush_buffers (results.foldl (process_file cfg) ⟨0, 0, 0, [], [], [], []⟩)).cosponsors_buf =
        flushedCraw (⟨0, 0, 0, [], [], [], []⟩ : DrvSt).events ++
          (⟨0, 0, 0, [], [], [], []⟩ : DrvSt).cosponsors_buf ++ allCRows results := by
      rw [flush_inv_C]
      exact run_inv_C cfg results _
    rw [flush_buffers_cos_nil, List.append_nil] at h1
    rw [h1, show flushedCraw (⟨0, 0, 0, [], [], [], []⟩ : DrvSt).events = [] from rfl,
      List.nil_append, List.nil_append]

/-! Claim C6: flush cadence. -/

/-- Is this event a buffer-flush statement? -/
def isFlushEv : Event → Bool
  | .flushActions _ => true
  | .flushCos _ => true
  | _ => false

/-- The bill row shared by the flush-cadence scenario documents. -/
def c6bill : BillRow := ⟨some "house", none, none, none, none, none, none⟩

/-- One action row of the scenario documents. -/
def c6act : Act := ⟨some 1, none, some "t", none⟩

/-- The i-th scenario document: three actions, no cosponsors. -/
def c6rec (i : Int) : PRec := ⟨(1, "hr", i), c6bill, [c6act, c6act, c6act], [], "p"⟩

/-- The scenario configuration: buffer threshold 10, commit batch 5000. -/
def c6cfg : EtlConfig := ⟨10, 5000⟩

/-- The driver state after processing the four scenario documents. -/
def c6state : DrvSt :=
  [ParseOut.ok (c6rec 1), .ok (c6rec 2), .ok (c6rec 3), .ok (c6rec 4)].foldl
    (process_file c6cfg) ⟨0, 0, 0, [], [], [], []⟩

theorem pfFlushStep_events_of (cfg : EtlConfig) (s : DrvSt) :
    ∃ t, (pfFlushStep cfg s).events = s.events ++ t ∧
      (s.actions_buf.length + s.cosponsors_buf.length ≥ cfg.buffer_flush_rows →
       1 ≤ cfg.buffer_flush_rows → t.any isFlushEv = true) := by
  unfold pfFlushStep
  split_ifs with h
  · refine ⟨(if s.actions_buf ≠ [] then [Event.flushActions s.actions_buf] else []) ++
      (if s.cosponsors_buf ≠ [] then [Event.flushCos s.cosponsors_buf] else []), ?_, ?_⟩
    · rw [flush_buffers_spec]
    · intro _ h1
      have hne : s.actions_buf ≠ [] ∨ s.cosponsors_buf ≠ [] := by
        by_contra hcon
        push_neg at hcon
        rw [hcon.1, hcon.2] at h
        simp at h
        omega
      rw [List.any_append]
      rcases hne with hne | hne
      · rw [if_pos hne]
        simp [isFlushEv]
      · rw [if_pos hne]
        simp [isFlushEv]
  · exact ⟨[], (List.append_nil _).symm, fun hge _ => absurd hge h⟩

theorem pfCommitStep_events_ap (cfg : EtlConfig) (s : DrvSt) :
    ∃ t, (pfCommitStep cfg s).events = s.events ++ t := by
  unfold pfCommitStep
  split_ifs
  · refine ⟨((if s.actions_buf ≠ [] then [Event.flushActions s.actions_buf] else []) ++
      (if s.cosponsors_buf ≠ [] then [Event.flushCos s.cosponsors_buf] else [])) ++
      [Event.commitEv], ?_⟩
    show (flush_buffers s).events ++ [Event.commitEv] = _
    rw [flush_buffers_spec, List.append_assoc]
  · exact ⟨[], (List.append_nil _).symm⟩

/-- Claim C6 counterexample.  With threshold 10 and four documents of three
actions each, the trace of the first four documents is four bill upserts
followed by exactly one flush: the flush triggered while processing the 4th
document comes AFTER that document's bill upsert (the threshold check runs
only after the upsert and the buffer append), refuting the claimed ordering
in which the flush precedes the 4th upsert. -/
theorem claim_C6_counterexample :
    c6state.events.length = 5 ∧
    c6state.events.take 4 = [Event.upsertBillEv (1, "hr", 1) c6bill, Event.upsertBillEv (1, "hr", 2) c6bill,
      Event.upsertBillEv (1, "hr", 3) c6bill, Event.upsertBillEv (1, "hr", 4) c6bill] ∧
    c6state.events.countP isFlushEv = 1 ∧
    (c6state.events.takeWhile
      (fun e => e ≠ Event.upsertBillEv (1, "hr", 4) c6bill)).any isFlushEv = false := by
  refine ⟨by decide, by decide, by decide, by decide⟩

/-- Claim C6, amended: in the scenario (threshold 10, three actions per
document, no cosponsors) the 4th document triggers exactly one buffer
flush, and that flush occurs AFTER the 4th document's own bill-row upsert
(the bill upsert is immediate and unbuffered, and the threshold check runs
only after the document's rows are buffered); in general the events emitted
for a successfully parsed document start with its bill upsert, and a flush
statement is among the following events whenever the combined buffered
action and cosponsor row count has reached the (positive) threshold. -/
theorem claim_C6 :
    (c6state.events.take 4 = [Event.upsertBillEv (1, "hr", 1) c6bill, Event.upsertBillEv (1, "hr", 2) c6bill,
      Event.upsertBillEv (1, "hr", 3) c6bill, Event.upsertBillEv (1, "hr", 4) c6bill] ∧
     c6state.events.countP isFlushEv = 1 ∧
     (c6state.events.drop 4).countP isFlushEv = 1) ∧
    (∀ (cfg : EtlConfig) (st : DrvSt) (rec : PRec), ∃ tail,
      (process_file cfg st (.ok rec)).events =
        st.events ++ Event.upsertBillEv rec.key rec.bill :: tail) ∧
    (∀ (cfg : EtlConfig) (st : DrvSt) (rec : PRec),
      1 ≤ cfg.buffer_flush_rows →
      st.actions_buf.length + rec.actions.length +
        (st.cosponsors_buf.length + rec.cosponsors.length) ≥ cfg.buffer_flush_rows →
      ∃ tail, (process_file cfg st (.ok rec)).events =
        st.events ++ Event.upsertBillEv rec.key rec.bill :: tail ∧
        tail.any isFlushEv = true) := by
  refine ⟨⟨by decide, by decide, by decide⟩, ?_, ?_⟩
  · intro cfg st rec
    obtain ⟨t1, he1, _⟩ := pfFlushStep_events_of cfg (pfIngest st rec)
    obtain ⟨t2, he2⟩ := pfCommitStep_events_ap cfg (pfFlushStep cfg (pfIngest st rec))
    refine ⟨t1 ++ t2, ?_⟩
    show (pfCommitStep cfg (pfFlushStep cfg (pfIngest st rec))).events = _
    rw [he2, he1]
    show (st.events ++ [Event.upsertBillEv rec.key rec.bill]) ++ t1 ++ t2 = _
    rw [List.append_assoc, List.append_assoc, List.singleton_append]
  · intro cfg st rec h1 hge
    obtain ⟨t1, he1, hf1⟩ := pfFlushStep_events_of cfg (pfIngest st rec)
    obtain ⟨t2, he2⟩ := pfCommitStep_events_ap cfg (pfFlushStep cfg (pfIngest st rec))
    have hlen : (pfIngest st rec).actions_buf.length + (pfIngest st rec).cosponsors_buf.length ≥
        cfg.buffer_flush_rows := by
      show (st.actions_buf ++ rec.actions.map (fun a => (rec.key, a, rec.source))).length +
        (st.cosponsors_buf ++ rec.cosponsors.map (cosRowOf rec.key)).length ≥ _
      rw [List.length_append, List.length_append, List.length_map, List.length_map]
      omega
    refine ⟨t1 ++ t2, ?_, ?_⟩
    · show (pfCommitStep cfg (pfFlushStep cfg (pfIngest st rec))).events = _
      rw [he2, he1]
      show (st.events ++ [Event.upsertBillEv rec.key rec.bill]) ++ t1 ++ t2 = _
      rw [List.append_assoc, List.append_assoc, List.singleton_append]
    · rw [List.any_append, hf1 hlen h1, Bool.true_or]

/-- Claim C6 witness: the general flush-trigger part applied at a concrete
threshold-1 configuration and one scenario document. -/
theorem claim_C6_witness :
    ∃ tail, (process_file ⟨1, 99⟩ ⟨0, 0, 0, [], [], [], []⟩ (.ok (c6rec 1))).events =
      (⟨0, 0, 0, [], [], [], []⟩ : DrvSt).events ++
        Event.upsertBillEv (c6rec 1).key (c6rec 1).bill :: tail ∧
      tail.any isFlushEv = true :=
  claim_C6.2.2 ⟨1, 99⟩ ⟨0, 0, 0, [], [], [], []⟩ (c6rec 1) (by decide) (by decide)

end CongressETL
